import Mathlib

/-!
Shallow embedding of the ShiftScheduler optimization core
(`src/features/shifts/algorithm/`: `types.ts`, `ScoringEngine.ts`,
`Scheduler.ts`, `worker.ts`, plus the `useScheduler` hook) together with
proofs about the embedded definitions.

Modelling conventions:
* JavaScript `Map`s and plain objects used as string-keyed records are
  modelled as insertion-ordered association lists (`List (String × _)`);
  `set`/record assignment updates an existing key in place and appends a
  fresh key at the end, exactly as JS preserves insertion order.
* JS numbers are modelled as `ℚ`; `Date` values as integer milliseconds
  (`ℤ`, the value of `Date.prototype.getTime`).
* Calls to `Math.random()` are modelled by an explicit oracle supplying
  the drawn branch/index for every random decision; array indices drawn
  as `Math.floor(Math.random() * len)` are modelled as an arbitrary
  natural reduced modulo `len`, which ranges over exactly the same set
  of in-range indices.
* The decimal rendering used in human-readable messages (`toFixed`) is
  given by an explicit formatter below; no theorem depends on the text
  of a message.
-/

/-- `ShiftType` from `types.ts`. -/
inductive ShiftType where
  | morning
  | evening
  | night
  | custom
deriving DecidableEq, Repr, Inhabited

/-- `Employee` from `types.ts`.  The optimization core only ever reads
`id`; the remaining fields are carried for fidelity to the interface. -/
structure Employee where
  id : String
  name : String
  maxDailyHours : ℚ
  maxConsecutiveDays : ℕ
  preferredShiftTypes : Option (List ShiftType)
  avoidShiftTypes : Option (List ShiftType)
  preferredDates : Option (List String)
  avoidDates : Option (List String)
  vacationDates : Option (List String)
  unavailableTimeBlocks : Option (List (ℤ × ℤ))
deriving DecidableEq, Repr

/-- `Shift` from `types.ts`; `startTime`/`endTime` are epoch milliseconds. -/
structure Shift where
  id : String
  date : String
  startTime : ℤ
  endTime : ℤ
  type : ShiftType
  minRequiredEmployees : ℕ
  maxAllowedEmployees : Option ℕ
deriving DecidableEq, Repr

instance : Inhabited Shift :=
  ⟨{ id := "", date := "", startTime := 0, endTime := 0, type := ShiftType.custom,
     minRequiredEmployees := 0, maxAllowedEmployees := none }⟩

/-- `ScheduleMap` from `types.ts`: a JS `Map` from shift id to the list of
assigned employee ids, modelled as an insertion-ordered association list. -/
abbrev ScheduleMap : Type := List (String × List String)

/-- Severity of a constraint rule (`'hard' | 'soft'` in `types.ts`). -/
inductive Severity where
  | hard
  | soft
deriving DecidableEq, Repr

/-- `ConstraintViolation` from `types.ts`. -/
structure ConstraintViolation where
  ruleCode : String
  type : Severity
  message : String
  employeeIds : List String
  shiftIds : List String
deriving DecidableEq, Repr

/-- `ScheduleEvaluation` from `types.ts`. -/
structure ScheduleEvaluation where
  schedule : ScheduleMap
  isValid : Bool
  penaltyScore : ℚ
  constraintViolations : List ConstraintViolation
deriving DecidableEq, Repr

/-- Result of `calculatePenaltyScore`: `{ score, violations }`. -/
structure PenaltyResult where
  score : ℚ
  violations : List ConstraintViolation
deriving DecidableEq, Repr

/-! ### Insertion-ordered association lists (JS `Map` / record semantics) -/

/-- `Map.get` / record read: first entry with the given key. -/
def getAssoc {α : Type} : List (String × α) → String → Option α
  | [], _ => none
  | p :: rest, k => if p.1 = k then some p.2 else getAssoc rest k

/-- `Map.set` / record write: update an existing key in place, else append. -/
def setAssoc {α : Type} : List (String × α) → String → α → List (String × α)
  | [], k, v => [(k, v)]
  | p :: rest, k, v => if p.1 = k then (k, v) :: rest else p :: setAssoc rest k v

/-- `Map.get(k).push(s)` on a map of arrays, creating the entry on demand
(the `if (!m.has(k)) m.set(k, []); m.get(k)!.push(s)` idiom). -/
def pushShift : List (String × List Shift) → String → Shift → List (String × List Shift)
  | [], k, s => [(k, [s])]
  | p :: rest, k, s =>
    if p.1 = k then (k, p.2 ++ [s]) :: rest else p :: pushShift rest k s

/-! ### Decimal formatting used in violation messages -/

/-- Rendering of `Number.prototype.toFixed(dp)` for the rationals that
actually occur in messages (round to nearest, `dp` digits). -/
def fmtFixed (dp : ℕ) (q : ℚ) : String :=
  let neg := q < 0
  let a : ℚ := |q|
  let scaled : ℤ := ⌊a * ((10 : ℚ) ^ dp) + 1 / 2⌋
  let base : ℤ := (10 : ℤ) ^ dp
  let ip := scaled / base
  let fp := (scaled % base).toNat
  let fpStr := toString fp
  let pad := String.mk (List.replicate (dp - fpStr.length) '0')
  (if neg then "-" else "") ++ toString ip ++ "." ++ pad ++ fpStr

/-- Rendering of a JS number in template-literal position: integral values
print without a decimal point. -/
def fmtNum (q : ℚ) : String :=
  if q.den = 1 then toString q.num else fmtFixed 2 q

/-! ### `ScoringEngine.ts` -/

/-- Processing of one schedule entry during grouping: look the shift id up
in `shifts` (`shifts.find(s => s.id === shiftId)`), skip the entry when the
lookup fails, and otherwise append the found shift to the group of every
assigned employee id. -/
def buildStep (shifts : List Shift) (m : List (String × List Shift))
    (p : String × List String) : List (String × List Shift) :=
  match shifts.find? (fun s => decide (s.id = p.1)) with
  | none => m
  | some shift => p.2.foldl (fun m2 empId => pushShift m2 empId shift) m

/-- Grouping step shared by `validateHardConstraints` and
`calculatePenaltyScore`: walk the schedule in insertion order, drop entries
whose shift id is not in `shifts`, and append the found shift to each
assigned employee id's group. -/
def buildEmployeeShifts (schedule : ScheduleMap) (shifts : List Shift) :
    List (String × List Shift) :=
  schedule.foldl (buildStep shifts) []

/-- Insert a shift into a list sorted by `startTime`, after every element
whose start is `≤` the inserted one (stability of JS `Array.prototype.sort`). -/
def insertByStart (s : Shift) : List Shift → List Shift
  | [] => [s]
  | t :: ts => if t.startTime ≤ s.startTime then t :: insertByStart s ts else s :: t :: ts

/-- `assignedShifts.sort((a, b) => a.startTime.getTime() - b.startTime.getTime())`:
a stable sort by start time. -/
def sortByStart (l : List Shift) : List Shift :=
  l.foldl (fun acc s => insertByStart s acc) []

/-- Rest gap in hours between the end of `a` and the start of `b`
(`msDifference / (1000 * 60 * 60)`). -/
def restGapHours (a b : Shift) : ℚ :=
  ((b.startTime - a.endTime : ℤ) : ℚ) / (1000 * 60 * 60)

/-- The `MINIMUM_REST_VIOLATION` record pushed by `validateHardConstraints`. -/
def restViolation (empId : String) (a b : Shift) : ConstraintViolation :=
  { ruleCode := "MINIMUM_REST_VIOLATION"
    type := Severity.hard
    message := "Employee " ++ empId ++ " does not have 8 hours of rest between shifts "
      ++ a.id ++ " and " ++ b.id ++ ". Only " ++ fmtFixed 2 (restGapHours a b)
      ++ " hours given."
    employeeIds := [empId]
    shiftIds := [a.id, b.id] }

/-- Inner scan of `validateHardConstraints`: first consecutive pair of the
(sorted) shift list with a rest gap below 8 hours. -/
def firstBadPair : List Shift → Option (Shift × Shift)
  | [] => none
  | [_] => none
  | a :: b :: rest =>
    if restGapHours a b < 8 then some (a, b) else firstBadPair (b :: rest)

/-- Outer loop of `validateHardConstraints` over the per-employee groups,
returning immediately on the first offending pair. -/
def validateGo : List (String × List Shift) → List ConstraintViolation
  | [] => []
  | p :: rest =>
    match firstBadPair (sortByStart p.2) with
    | some ab => [restViolation p.1 ab.1 ab.2]
    | none => validateGo rest

/-- `validateHardConstraints` from `ScoringEngine.ts`.  The `employees`
argument is accepted but (as in the source) never consulted. -/
def validateHardConstraints (schedule : ScheduleMap) (employees : List Employee)
    (shifts : List Shift) : List ConstraintViolation :=
  validateGo (buildEmployeeShifts schedule shifts)

/-- Number of night shifts in a group (`assignedShifts.filter(s => s.type === 'night').length`). -/
def nightCount (l : List Shift) : ℚ :=
  ((l.filter (fun s => decide (s.type = ShiftType.night))).length : ℚ)

/-- The `UNEVEN_NIGHT_SHIFTS` record pushed by `calculatePenaltyScore`. -/
def unevenViolation (empId : String) (count avg : ℚ) : ConstraintViolation :=
  { ruleCode := "UNEVEN_NIGHT_SHIFTS"
    type := Severity.soft
    message := "Employee " ++ empId ++ " has an unfair share of night shifts ("
      ++ fmtNum count ++ " vs average " ++ fmtFixed 1 avg ++ "). Added penalty: "
      ++ fmtFixed 1 (|count - avg| ^ 2 * 10)
    employeeIds := [empId]
    shiftIds := [] }

/-- Body of the penalty loop of `calculatePenaltyScore`: penalize one
employee entry when its deviation from the average exceeds 1. -/
def penaltyStep (averageNights : ℚ) (acc : PenaltyResult) (p : String × ℚ) :
    PenaltyResult :=
  let deviation := |p.2 - averageNights|
  if deviation > 1 then
    { score := acc.score + deviation ^ 2 * 10
      violations := acc.violations ++ [unevenViolation p.1 p.2 averageNights] }
  else acc

/-- `calculatePenaltyScore` from `ScoringEngine.ts`. -/
def calculatePenaltyScore (schedule : ScheduleMap) (employees : List Employee)
    (shifts : List Shift) : PenaltyResult :=
  let employeeShifts := buildEmployeeShifts schedule shifts
  let counts0 : List (String × ℚ) :=
    employees.foldl (fun m e => setAssoc m e.id 0) []
  let counts :=
    employeeShifts.foldl (fun m p => setAssoc m p.1 (nightCount p.2)) counts0
  let totalNights := (counts.map Prod.snd).sum
  if totalNights > 0 ∧ employees.length > 0 then
    let averageNights := totalNights / (employees.length : ℚ)
    counts.foldl (penaltyStep averageNights) { score := 0, violations := [] }
  else { score := 0, violations := [] }

example :
    validateHardConstraints
      [("s1", ["A"]), ("s2", ["A"])] []
      [{ id := "s1", date := "d", startTime := 0, endTime := 4 * 3600000,
         type := ShiftType.custom, minRequiredEmployees := 1, maxAllowedEmployees := none },
       { id := "s2", date := "d", startTime := 5 * 3600000, endTime := 9 * 3600000,
         type := ShiftType.custom, minRequiredEmployees := 1, maxAllowedEmployees := none }]
      = [restViolation "A"
          { id := "s1", date := "d", startTime := 0, endTime := 4 * 3600000,
            type := ShiftType.custom, minRequiredEmployees := 1, maxAllowedEmployees := none }
          { id := "s2", date := "d", startTime := 5 * 3600000, endTime := 9 * 3600000,
            type := ShiftType.custom, minRequiredEmployees := 1, maxAllowedEmployees := none }] := by
  with_unfolding_all decide

/-! ### `Scheduler.ts` -/

/-- `SchedulerOptions` from `Scheduler.ts`.  All three fields are optional;
`maxIterations` is a loop bound, the other two are JS numbers. -/
structure SchedulerOptions where
  maxIterations : Option ℕ := none
  startTemperature : Option ℚ := none
  coolingRate : Option ℚ := none
deriving DecidableEq, Repr

/-- JavaScript `options.x || default`: an absent value, and also a supplied
`0` (falsy), select the default. -/
def orDefaultNat (o : Option ℕ) (d : ℕ) : ℕ :=
  match o with
  | none => d
  | some n => if n = 0 then d else n

/-- JavaScript `options.x || default` for number-valued options. -/
def orDefaultQ (o : Option ℚ) (d : ℚ) : ℚ :=
  match o with
  | none => d
  | some x => if x = 0 then d else x

/-- One iteration's worth of random draws inside `mutateSchedule`.  Index
fields are reduced modulo the relevant length at use sites, matching
`Math.floor(Math.random() * len)`; `strategyLt` is `Math.random() < 0.5`. -/
structure MutationChoice where
  shiftIdx : ℕ
  strategyLt : Bool
  replaceIdx : ℕ
  newEmpIdx : ℕ
  otherShiftIdx : ℕ
  pairIdxA : ℕ
  pairIdxB : ℕ
deriving Repr

/-- The pseudo-random stream of one whole search run: draws for the initial
schedule, one `MutationChoice` per iteration, and the Metropolis coin
(`Math.random() < exp((current - neighbor) / temperature)`) per iteration. -/
structure Oracle where
  initPick : ℕ → ℕ
  mutChoice : ℕ → MutationChoice
  acceptWorse : ℕ → Bool

/-- A concrete oracle that always draws index 0, strategy A and a failing
Metropolis coin; used for concrete evaluations. -/
def zeroOracle : Oracle :=
  { initPick := fun _ => 0
    mutChoice := fun _ =>
      { shiftIdx := 0, strategyLt := true, replaceIdx := 0, newEmpIdx := 0,
        otherShiftIdx := 0, pairIdxA := 0, pairIdxB := 0 }
    acceptWorse := fun _ => false }

/-- Inner loop of `generateRandomInitialSchedule` for one shift: repeatedly
pick a uniformly random employee from the not-yet-picked pool until
`minRequiredEmployees` slots are filled or the pool is exhausted.  Returns
the picked ids and the advanced position in the random stream. -/
def pickAssignees (r : ℕ → ℕ) : ℕ → List Employee → ℕ → List String × ℕ
  | 0, _, ctr => ([], ctr)
  | need + 1, avail, ctr =>
    if h : avail.length = 0 then ([], ctr)
    else
      let idx := r ctr % avail.length
      let emp := avail.get ⟨idx, Nat.mod_lt _ (Nat.pos_of_ne_zero h)⟩
      let res := pickAssignees r need (avail.eraseIdx idx) (ctr + 1)
      (emp.id :: res.1, res.2)

/-- Per-shift loop of `generateRandomInitialSchedule`. -/
def initScheduleGo (employees : List Employee) (r : ℕ → ℕ) :
    List Shift → ScheduleMap → ℕ → ScheduleMap
  | [], sched, _ => sched
  | s :: rest, sched, ctr =>
    let res := pickAssignees r s.minRequiredEmployees employees ctr
    initScheduleGo employees r rest (setAssoc sched s.id res.1) res.2

/-- `generateRandomInitialSchedule` from `Scheduler.ts`. -/
def generateRandomInitialSchedule (employees : List Employee) (shifts : List Shift)
    (r : ℕ → ℕ) : ScheduleMap :=
  initScheduleGo employees r shifts [] 0

/-- `cloneSchedule` from `Scheduler.ts` (deep copy of the map, entry order
preserved). -/
def cloneSchedule (schedule : ScheduleMap) : ScheduleMap :=
  schedule.map (fun p => (p.1, p.2))

/-- `mutateSchedule` from `Scheduler.ts`, with the random draws supplied by
a `MutationChoice`. -/
def mutateSchedule (schedule : ScheduleMap) (employees : List Employee)
    (shifts : List Shift) (c : MutationChoice) : ScheduleMap :=
  let mutated := cloneSchedule schedule
  if h : shifts.length = 0 ∨ employees.length = 0 then mutated
  else
    let hs : 0 < shifts.length :=
      Nat.pos_of_ne_zero (fun hh => h (Or.inl hh))
    let shiftToMutate := shifts.get ⟨c.shiftIdx % shifts.length, Nat.mod_lt _ hs⟩
    let assignedIds := (getAssoc mutated shiftToMutate.id).getD []
    if c.strategyLt = true ∧ assignedIds.length ≠ 0 then
      -- Strategy A: replace one assignee with an employee not on this shift
      let replaceIdx := c.replaceIdx % assignedIds.length
      let unassigned := employees.filter (fun e => ¬ assignedIds.contains e.id)
      if hu : unassigned.length = 0 then mutated
      else
        let newEmp := unassigned.get
          ⟨c.newEmpIdx % unassigned.length, Nat.mod_lt _ (Nat.pos_of_ne_zero hu)⟩
        setAssoc mutated shiftToMutate.id (assignedIds.set replaceIdx newEmp.id)
    else
      -- Strategy B: swap one assignee with one from another shift
      let otherShift := shifts.get ⟨c.otherShiftIdx % shifts.length, Nat.mod_lt _ hs⟩
      if otherShift.id ≠ shiftToMutate.id then
        let otherAssignedIds := (getAssoc mutated otherShift.id).getD []
        if hb : assignedIds.length ≠ 0 ∧ otherAssignedIds.length ≠ 0 then
          let iA := c.pairIdxA % assignedIds.length
          let iB := c.pairIdxB % otherAssignedIds.length
          let empA := assignedIds.get ⟨iA, Nat.mod_lt _ (Nat.pos_of_ne_zero hb.1)⟩
          let empB := otherAssignedIds.get ⟨iB, Nat.mod_lt _ (Nat.pos_of_ne_zero hb.2)⟩
          if ¬ assignedIds.contains empB ∧ ¬ otherAssignedIds.contains empA then
            setAssoc (setAssoc mutated shiftToMutate.id (assignedIds.set iA empB))
              otherShift.id (otherAssignedIds.set iB empA)
          else mutated
        else mutated
      else mutated

/-- `energy = hardViolations.length * 10000 + softPenalty.score`. -/
def energyOf (hard : List ConstraintViolation) (soft : PenaltyResult) : ℚ :=
  (hard.length : ℚ) * 10000 + soft.score

/-- The mutable state of the annealing loop in `runHeuristicSearch`.
`itersDone` counts fully completed iterations (an iteration cut short by
the perfect-schedule `break` is not counted); `stopped` records that the
`break` fired. -/
structure SearchState where
  currentSchedule : ScheduleMap
  currentHard : List ConstraintViolation
  currentSoft : PenaltyResult
  currentEnergy : ℚ
  bestSchedule : ScheduleMap
  bestHard : List ConstraintViolation
  bestSoft : PenaltyResult
  bestEnergy : ℚ
  temperature : ℚ
  itersDone : ℕ
  stopped : Bool
deriving Repr

/-- Temperature update at the end of an iteration: multiply by the cooling
rate, clamped below by `0.0001`. -/
def coolTemp (coolingRate t : ℚ) : ℚ :=
  let t2 := t * coolingRate
  if t2 < 1 / 10000 then 1 / 10000 else t2

/-- The accept/reject, best-tracking and cooling logic of one iteration,
parameterized by the already-evaluated neighbor. -/
def searchStepCore (coolingRate : ℚ) (acceptWorse : Bool) (st : SearchState)
    (neighborSchedule : ScheduleMap) (neighborHard : List ConstraintViolation)
    (neighborSoft : PenaltyResult) : SearchState :=
  let neighborEnergy := energyOf neighborHard neighborSoft
  let st2 :=
    if neighborEnergy < st.currentEnergy then
      let accepted :=
        { st with currentSchedule := neighborSchedule, currentEnergy := neighborEnergy,
                  currentHard := neighborHard, currentSoft := neighborSoft }
      if neighborEnergy < st.bestEnergy then
        let improved :=
          { accepted with bestEnergy := neighborEnergy,
                          bestSchedule := cloneSchedule neighborSchedule,
                          bestHard := neighborHard, bestSoft := neighborSoft }
        if improved.bestEnergy = 0 then { improved with stopped := true } else improved
      else accepted
    else
      if acceptWorse then
        { st with currentSchedule := neighborSchedule, currentEnergy := neighborEnergy,
                  currentHard := neighborHard, currentSoft := neighborSoft }
      else st
  if st2.stopped then st2
  else { st2 with temperature := coolTemp coolingRate st2.temperature,
                  itersDone := st.itersDone + 1 }

/-- One iteration of the annealing loop (`for (let i = 0; ...)` body):
mutate, evaluate, then accept/reject, track best and cool. -/
def searchStep (o : Oracle) (employees : List Employee) (shifts : List Shift)
    (coolingRate : ℚ) (i : ℕ) (st : SearchState) : SearchState :=
  let neighborSchedule := mutateSchedule st.currentSchedule employees shifts (o.mutChoice i)
  searchStepCore coolingRate (o.acceptWorse i) st neighborSchedule
    (validateHardConstraints neighborSchedule employees shifts)
    (calculatePenaltyScore neighborSchedule employees shifts)

/-- The annealing loop: run up to `fuel` more iterations starting at loop
index `i`, exiting as soon as the `break` flag is set. -/
def searchGo (o : Oracle) (employees : List Employee) (shifts : List Shift)
    (coolingRate : ℚ) : ℕ → ℕ → SearchState → SearchState
  | 0, _, st => st
  | fuel + 1, i, st =>
    if st.stopped then st
    else searchGo o employees shifts coolingRate fuel (i + 1)
      (searchStep o employees shifts coolingRate i st)

/-- The state of `runHeuristicSearch` just before the loop starts. -/
def initSearchState (employees : List Employee) (shifts : List Shift)
    (startTemperature : ℚ) (o : Oracle) : SearchState :=
  let sch := generateRandomInitialSchedule employees shifts o.initPick
  let hard := validateHardConstraints sch employees shifts
  let soft := calculatePenaltyScore sch employees shifts
  let e := energyOf hard soft
  { currentSchedule := sch, currentHard := hard, currentSoft := soft, currentEnergy := e
    bestSchedule := cloneSchedule sch, bestHard := hard, bestSoft := soft, bestEnergy := e
    temperature := startTemperature, itersDone := 0, stopped := false }

/-- The loop state after `n` of the configured iterations (with explicit,
already-resolved parameters). -/
def searchStateAt (employees : List Employee) (shifts : List Shift)
    (startTemperature coolingRate : ℚ) (o : Oracle) (n : ℕ) : SearchState :=
  searchGo o employees shifts coolingRate n 0
    (initSearchState employees shifts startTemperature o)

/-- The `ScheduleEvaluation` built from the loop's final state (the
`return` of `runHeuristicSearch`). -/
def evaluationOf (st : SearchState) : ScheduleEvaluation :=
  { schedule := st.bestSchedule
    isValid := st.bestHard.length = 0
    penaltyScore := st.bestSoft.score
    constraintViolations := st.bestHard ++ st.bestSoft.violations }

/-- `runHeuristicSearch` with the three configuration values already
resolved. -/
def runSearchWith (employees : List Employee) (shifts : List Shift)
    (maxIterations : ℕ) (startTemperature coolingRate : ℚ) (o : Oracle) :
    ScheduleEvaluation :=
  evaluationOf (searchStateAt employees shifts startTemperature coolingRate o maxIterations)

/-- The final loop state of `runHeuristicSearch` for given options. -/
def runSearchState (employees : List Employee) (shifts : List Shift)
    (options : SchedulerOptions) (o : Oracle) : SearchState :=
  searchStateAt employees shifts
    (orDefaultQ options.startTemperature 100)
    (orDefaultQ options.coolingRate (95 / 100)) o
    (orDefaultNat options.maxIterations 5000)

/-- `runHeuristicSearch` from `Scheduler.ts`:
`MAX_ITERATIONS = options.maxIterations || 5000`,
`temperature = options.startTemperature || 100.0`,
`coolingRate = options.coolingRate || 0.95`, then the annealing loop. -/
def runHeuristicSearch (employees : List Employee) (shifts : List Shift)
    (options : SchedulerOptions) (o : Oracle) : ScheduleEvaluation :=
  evaluationOf (runSearchState employees shifts options o)

/-! ### `worker.ts` and the `useScheduler` hook -/

/-- The worker request payload options (`{ maxIterations?: number }`). -/
structure WorkerOptions where
  maxIterations : Option ℕ := none
deriving DecidableEq, Repr

/-- `ScheduleRequestPayload` from `worker.ts`. -/
structure ScheduleRequestPayload where
  employees : List Employee
  shifts : List Shift
  options : Option WorkerOptions := none

/-- The single message posted back by the worker's `onmessage` handler in
`worker.ts`.  The handler is a stub: it ignores the payload and posts a
hard-coded evaluation (`schedule: new Map()`, `isValid: false`,
`penaltyScore: 9999`, `constraintViolations: []`) without invoking
`runHeuristicSearch`. -/
def onmessageResponse (_e : ScheduleRequestPayload) : ScheduleEvaluation :=
  { schedule := []
    isValid := false
    penaltyScore := 9999
    constraintViolations := [] }

/-- The options object posted to the worker by `generateSchedule` in
`useScheduler.ts` (`options: { maxIterations: 10000 }`). -/
def hookSchedulerOptions : SchedulerOptions :=
  { maxIterations := some 10000, startTemperature := none, coolingRate := none }

/-! ### Specification-side reformulations -/

/-- The first offender in scan order, phrased independently of the
validator's recursion: the first per-employee group whose sorted shift
list has a consecutive pair resting less than 8 hours, together with the
first such pair. -/
def specFirstOffender (g : List (String × List Shift)) : Option (String × Shift × Shift) :=
  g.findSome? (fun p =>
    (((sortByStart p.2).zip (sortByStart p.2).tail).find?
        (fun q => decide (restGapHours q.1 q.2 < 8))).map
      (fun q => (p.1, q.1, q.2)))

/-! ### Lemmas about the validator (claim C2) -/

theorem firstBadPair_eq_find? :
    ∀ l : List Shift,
      firstBadPair l =
        (l.zip l.tail).find? (fun q => decide (restGapHours q.1 q.2 < 8))
  | [] => rfl
  | [_] => rfl
  | a :: b :: rest => by
    rw [show (a :: b :: rest).tail = b :: rest from rfl, List.zip_cons_cons]
    by_cases h : restGapHours a b < 8
    · simp [firstBadPair, h]
    · simp only [firstBadPair, if_neg h]
      rw [firstBadPair_eq_find? (b :: rest)]
      rw [List.find?_cons_of_neg _ (by simpa using h)]
      rfl

theorem validateGo_eq_specFirstOffender :
    ∀ g : List (String × List Shift),
      validateGo g =
        (match specFirstOffender g with
         | some t => [restViolation t.1 t.2.1 t.2.2]
         | none => [])
  | [] => rfl
  | p :: rest => by
    simp only [validateGo, specFirstOffender, List.findSome?_cons]
    rw [← firstBadPair_eq_find?]
    cases h : firstBadPair (sortByStart p.2) with
    | some ab => simp
    | none =>
      simp only [Option.map_none']
      exact validateGo_eq_specFirstOffender rest

/-! ### Unknown identifiers (claim C8) -/

/-- The schedule restricted to entries whose shift id occurs in `shifts`. -/
def keepKnownShifts (schedule : ScheduleMap) (shifts : List Shift) : ScheduleMap :=
  schedule.filter (fun p => (shifts.find? (fun s => decide (s.id = p.1))).isSome)

/-- The schedule with every assigned employee id that does not occur in
`employees` removed (the reading of the claim for employee ids). -/
def dropUnknownEmployees (schedule : ScheduleMap) (employees : List Employee) : ScheduleMap :=
  schedule.map (fun p => (p.1, p.2.filter (fun i => employees.any (fun e => decide (e.id = i)))))

theorem foldl_buildStep_keepKnownShifts (shifts : List Shift) :
    ∀ (schedule : ScheduleMap) (m : List (String × List Shift)),
      (keepKnownShifts schedule shifts).foldl (buildStep shifts) m =
        schedule.foldl (buildStep shifts) m
  | [], _ => rfl
  | p :: rest, m => by
    by_cases h : (shifts.find? (fun s => decide (s.id = p.1))).isSome
    · rw [show keepKnownShifts (p :: rest) shifts = p :: keepKnownShifts rest shifts from by
        simp [keepKnownShifts, h]]
      exact foldl_buildStep_keepKnownShifts shifts rest (buildStep shifts m p)
    · rw [show keepKnownShifts (p :: rest) shifts = keepKnownShifts rest shifts from by
        simp [keepKnownShifts, h]]
      rw [List.foldl_cons]
      rw [show buildStep shifts m p = m from by
        cases hf : shifts.find? (fun s => decide (s.id = p.1)) with
        | some s => exact absurd (by simp [hf]) h
        | none => simp [buildStep, hf]]
      exact foldl_buildStep_keepKnownShifts shifts rest m

theorem buildEmployeeShifts_keepKnownShifts (schedule : ScheduleMap) (shifts : List Shift) :
    buildEmployeeShifts (keepKnownShifts schedule shifts) shifts =
      buildEmployeeShifts schedule shifts :=
  foldl_buildStep_keepKnownShifts shifts schedule []

/-! ### Night-shift fairness (claim C3): specification-side formulation -/

/-- Number of night shifts the schedule assigns to `empId` (claim wording:
each assignment of a known night shift counts once, with multiplicity). -/
def specNightCount (schedule : ScheduleMap) (shifts : List Shift) (empId : String) : ℚ :=
  (schedule.map (fun p =>
    match shifts.find? (fun s => decide (s.id = p.1)) with
    | some s => if s.type = ShiftType.night then (p.2.count empId : ℚ) else 0
    | none => 0)).sum

/-- Total night-shift count over the employee list. -/
def specNightTotal (schedule : ScheduleMap) (employees : List Employee)
    (shifts : List Shift) : ℚ :=
  (employees.map (fun e => specNightCount schedule shifts e.id)).sum

/-- Mean night-shift count over the employees. -/
def specNightMean (schedule : ScheduleMap) (employees : List Employee)
    (shifts : List Shift) : ℚ :=
  specNightTotal schedule employees shifts / (employees.length : ℚ)

/-- Deviation of one employee from the mean. -/
def specNightDeviation (schedule : ScheduleMap) (employees : List Employee)
    (shifts : List Shift) (e : Employee) : ℚ :=
  |specNightCount schedule shifts e.id - specNightMean schedule employees shifts|

/-- The fairness score described by the specification: `deviation² × 10`
summed over the employees whose deviation exceeds 1. -/
def specNightScore (schedule : ScheduleMap) (employees : List Employee)
    (shifts : List Shift) : ℚ :=
  (employees.map (fun e =>
    if specNightDeviation schedule employees shifts e > 1 then
      specNightDeviation schedule employees shifts e ^ 2 * 10
    else 0)).sum

/-- One `UNEVEN_NIGHT_SHIFTS` violation per employee whose deviation
exceeds 1, in employee-list order. -/
def specNightViolations (schedule : ScheduleMap) (employees : List Employee)
    (shifts : List Shift) : List ConstraintViolation :=
  (employees.filter (fun e => decide (specNightDeviation schedule employees shifts e > 1))).map
    (fun e => unevenViolation e.id (specNightCount schedule shifts e.id)
      (specNightMean schedule employees shifts))

/-! ### Association-list lemmas -/

theorem getAssoc_pushShift :
    ∀ (m : List (String × List Shift)) (k : String) (s : Shift) (k' : String),
      getAssoc (pushShift m k s) k' =
        if k' = k then some (((getAssoc m k).getD []) ++ [s]) else getAssoc m k'
  | [], k, s, k' => by
    by_cases h : k' = k
    · subst h
      simp [pushShift, getAssoc]
    · have h2 : ¬ k = k' := fun hh => h hh.symm
      simp [pushShift, getAssoc, h, h2]
  | p :: rest, k, s, k' => by
    by_cases hpk : p.1 = k
    · by_cases hk' : k' = k
      · subst hk'
        simp [pushShift, getAssoc, hpk]
      · have hkk' : ¬ k = k' := fun hh => hk' hh.symm
        have hpk' : ¬ p.1 = k' := fun hh => hk' (hh ▸ hpk)
        simp [pushShift, getAssoc, hpk, hk', hkk', hpk']
    · by_cases hpk' : p.1 = k'
      · have hk' : ¬ k' = k := fun hh => hpk (hpk'.trans hh)
        simp [pushShift, getAssoc, hpk, hpk', hk']
      · simp [pushShift, getAssoc, hpk, hpk', getAssoc_pushShift rest k s k']

theorem getAssoc_eq_none_of_not_mem_keys {α : Type} :
    ∀ (m : List (String × α)) (k : String), k ∉ m.map Prod.fst → getAssoc m k = none
  | [], _, _ => rfl
  | p :: rest, k, h => by
    have h1 : ¬ p.1 = k := fun hh => h (by simp [hh])
    have h2 : k ∉ rest.map Prod.fst := fun hh => h (by simp [hh])
    simp [getAssoc, h1, getAssoc_eq_none_of_not_mem_keys rest k h2]

theorem getAssoc_append {α : Type} :
    ∀ (m1 m2 : List (String × α)) (k : String),
      getAssoc (m1 ++ m2) k =
        (match getAssoc m1 k with
         | some v => some v
         | none => getAssoc m2 k)
  | [], _, _ => rfl
  | p :: rest, m2, k => by
    by_cases h : p.1 = k
    · simp [getAssoc, h]
    · simp [getAssoc, h, getAssoc_append rest m2 k]

theorem setAssoc_of_getAssoc_none {α : Type} :
    ∀ (m : List (String × α)) (k : String) (v : α),
      getAssoc m k = none → setAssoc m k v = m ++ [(k, v)]
  | [], _, _, _ => rfl
  | p :: rest, k, v, h => by
    by_cases hp : p.1 = k
    · simp [getAssoc, hp] at h
    · simp only [getAssoc, if_neg hp] at h
      simp [setAssoc, hp, setAssoc_of_getAssoc_none rest k v h]

theorem nightCount_append_single (l : List Shift) (s : Shift) :
    nightCount (l ++ [s]) =
      nightCount l + (if s.type = ShiftType.night then 1 else 0) := by
  by_cases h : s.type = ShiftType.night <;>
    simp [nightCount, List.filter_append, h]

theorem nightCount_foldl_push (s : Shift) :
    ∀ (ids : List String) (m : List (String × List Shift)) (k : String),
      nightCount ((getAssoc (ids.foldl (fun m2 i => pushShift m2 i s) m) k).getD []) =
        nightCount ((getAssoc m k).getD []) +
          (if s.type = ShiftType.night then (ids.count k : ℚ) else 0)
  | [], m, k => by simp
  | i :: rest, m, k => by
    rw [List.foldl_cons, nightCount_foldl_push s rest (pushShift m i s) k,
      getAssoc_pushShift m i s k]
    by_cases hki : k = i
    · subst hki
      rw [if_pos rfl, Option.getD_some, nightCount_append_single]
      by_cases hn : s.type = ShiftType.night
      · simp only [hn, if_true, List.count_cons_self]
        push_cast
        ring
      · simp [hn]
    · rw [if_neg hki]
      by_cases hn : s.type = ShiftType.night
      · have hcc : (i :: rest).count k = rest.count k := by
          simp [List.count_cons, hki]
        simp [hn, hcc]
      · simp [hn]

theorem nightCount_foldl_buildStep (shifts : List Shift) :
    ∀ (schedule : ScheduleMap) (m : List (String × List Shift)) (k : String),
      nightCount ((getAssoc (schedule.foldl (buildStep shifts) m) k).getD []) =
        nightCount ((getAssoc m k).getD []) + specNightCount schedule shifts k
  | [], m, k => by simp [specNightCount]
  | p :: rest, m, k => by
    rw [List.foldl_cons, nightCount_foldl_buildStep shifts rest (buildStep shifts m p) k]
    have hspec : specNightCount (p :: rest) shifts k =
        (match shifts.find? (fun s => decide (s.id = p.1)) with
         | some s => if s.type = ShiftType.night then (p.2.count k : ℚ) else 0
         | none => 0) + specNightCount rest shifts k := by
      simp [specNightCount]
    rw [hspec]
    cases hf : shifts.find? (fun s => decide (s.id = p.1)) with
    | none =>
      rw [show buildStep shifts m p = m from by simp [buildStep, hf]]
      ring
    | some s =>
      rw [show buildStep shifts m p =
          p.2.foldl (fun m2 i => pushShift m2 i s) m from by simp [buildStep, hf]]
      rw [nightCount_foldl_push s p.2 m k]
      ring

theorem nightCount_buildEmployeeShifts (schedule : ScheduleMap) (shifts : List Shift)
    (k : String) :
    nightCount ((getAssoc (buildEmployeeShifts schedule shifts) k).getD []) =
      specNightCount schedule shifts k := by
  rw [buildEmployeeShifts, nightCount_foldl_buildStep shifts schedule [] k]
  simp [getAssoc, nightCount]

theorem mem_keys_pushShift :
    ∀ (m : List (String × List Shift)) (i : String) (s : Shift) (k : String),
      k ∈ (pushShift m i s).map Prod.fst → k ∈ m.map Prod.fst ∨ k = i
  | [], i, s, k => by
    intro h
    simp [pushShift] at h
    exact Or.inr h
  | p :: rest, i, s, k => by
    by_cases hpi : p.1 = i
    · simp only [pushShift, if_pos hpi, List.map_cons, List.mem_cons]
      rintro (h | h)
      · exact Or.inr h
      · exact Or.inl (Or.inr h)
    · simp only [pushShift, if_neg hpi, List.map_cons, List.mem_cons]
      rintro (h | h)
      · exact Or.inl (Or.inl h)
      · rcases mem_keys_pushShift rest i s k h with h2 | h2
        · exact Or.inl (Or.inr h2)
        · exact Or.inr h2

theorem mem_keys_foldl_push (s : Shift) :
    ∀ (ids : List String) (m : List (String × List Shift)) (k : String),
      k ∈ (ids.foldl (fun m2 i => pushShift m2 i s) m).map Prod.fst →
        k ∈ m.map Prod.fst ∨ k ∈ ids
  | [], _, _ => fun h => Or.inl h
  | i :: rest, m, k => by
    rw [List.foldl_cons]
    intro h
    rcases mem_keys_foldl_push s rest (pushShift m i s) k h with h2 | h2
    · rcases mem_keys_pushShift m i s k h2 with h3 | h3
      · exact Or.inl h3
      · exact Or.inr (by simp [h3])
    · exact Or.inr (by simp [h2])

theorem mem_keys_foldl_buildStep (shifts : List Shift) :
    ∀ (schedule : ScheduleMap) (m : List (String × List Shift)) (k : String),
      k ∈ (schedule.foldl (buildStep shifts) m).map Prod.fst →
        k ∈ m.map Prod.fst ∨ ∃ p ∈ schedule, k ∈ p.2
  | [], _, _ => fun h => Or.inl h
  | p :: rest, m, k => by
    rw [List.foldl_cons]
    intro h
    rcases mem_keys_foldl_buildStep shifts rest (buildStep shifts m p) k h with h2 | h2
    · cases hf : shifts.find? (fun s => decide (s.id = p.1)) with
      | none =>
        rw [show buildStep shifts m p = m from by simp [buildStep, hf]] at h2
        exact Or.inl h2
      | some s =>
        rw [show buildStep shifts m p =
            p.2.foldl (fun m2 i => pushShift m2 i s) m from by simp [buildStep, hf]] at h2
        rcases mem_keys_foldl_push s p.2 m k h2 with h3 | h3
        · exact Or.inl h3
        · exact Or.inr ⟨p, by simp, h3⟩
    · rcases h2 with ⟨q, hq, hkq⟩
      exact Or.inr ⟨q, by simp [hq], hkq⟩

theorem mem_keys_buildEmployeeShifts (schedule : ScheduleMap) (shifts : List Shift)
    (k : String) (h : k ∈ (buildEmployeeShifts schedule shifts).map Prod.fst) :
    ∃ p ∈ schedule, k ∈ p.2 := by
  rcases mem_keys_foldl_buildStep shifts schedule [] k h with h2 | h2
  · simp at h2
  · exact h2

theorem foldl_setAssoc_fresh {α : Type} (v : α) :
    ∀ (employees : List Employee) (m : List (String × α)),
      (∀ e ∈ employees, getAssoc m e.id = none) →
      (employees.map Employee.id).Nodup →
      employees.foldl (fun m2 e => setAssoc m2 e.id v) m =
        m ++ employees.map (fun e => (e.id, v))
  | [], m, _, _ => by simp
  | e :: rest, m, h, hnd => by
    rw [List.foldl_cons, setAssoc_of_getAssoc_none m e.id v (h e (by simp))]
    have hnd2 : (rest.map Employee.id).Nodup := by
      simpa using hnd.of_cons
    have hmem : e.id ∉ rest.map Employee.id := by
      have := hnd
      simp only [List.map_cons, List.nodup_cons] at this
      exact this.1
    have h2 : ∀ e2 ∈ rest, getAssoc (m ++ [(e.id, v)]) e2.id = none := by
      intro e2 he2
      rw [getAssoc_append]
      rw [h e2 (by simp [he2])]
      have hne : ¬ e.id = e2.id := by
        intro hh
        exact hmem (hh ▸ List.mem_map_of_mem Employee.id he2)
      simp [getAssoc, hne]
    rw [foldl_setAssoc_fresh v rest (m ++ [(e.id, v)]) h2 hnd2]
    simp

theorem setAssoc_map_employees {α : Type} (k : String) (v : α) :
    ∀ (employees : List Employee) (f : Employee → α),
      (employees.map Employee.id).Nodup →
      k ∈ employees.map Employee.id →
      setAssoc (employees.map (fun e => (e.id, f e))) k v =
        employees.map (fun e => (e.id, if e.id = k then v else f e))
  | [], _, _, hk => by simp at hk
  | e :: rest, f, hnd, hk => by
    by_cases he : e.id = k
    · have hmem : e.id ∉ rest.map Employee.id := by
        have := hnd
        simp only [List.map_cons, List.nodup_cons] at this
        exact this.1
      simp only [List.map_cons, setAssoc, if_pos he, if_pos he]
      have : rest.map (fun e2 => (e2.id, if e2.id = k then v else f e2)) =
          rest.map (fun e2 => (e2.id, f e2)) := by
        apply List.map_congr_left
        intro e2 he2
        have hne : ¬ e2.id = k := by
          intro hh
          exact hmem (by rw [he]; exact hh ▸ List.mem_map_of_mem Employee.id he2)
        simp [hne]
      rw [this, he]
    · have hk2 : k ∈ rest.map Employee.id := by
        rcases (by simpa using hk) with h1 | h1
        · exact absurd h1.symm he
        · simpa using h1
      have hnd2 : (rest.map Employee.id).Nodup := by
        simpa using hnd.of_cons
      have hne : ¬ e.id = k := he
      simp only [List.map_cons, setAssoc, if_neg hne]
      rw [setAssoc_map_employees k v rest f hnd2 hk2]

theorem keys_pushShift_nodup :
    ∀ (m : List (String × List Shift)) (i : String) (s : Shift),
      (m.map Prod.fst).Nodup → ((pushShift m i s).map Prod.fst).Nodup
  | [], i, s, _ => by simp [pushShift]
  | p :: rest, i, s, hnd => by
    by_cases hpi : p.1 = i
    · subst hpi
      simpa [pushShift] using hnd
    · simp only [pushShift, if_neg hpi, List.map_cons, List.nodup_cons]
      have hnd2 := (by simpa using hnd : p.1 ∉ rest.map Prod.fst ∧ (rest.map Prod.fst).Nodup)
      refine ⟨?_, keys_pushShift_nodup rest i s hnd2.2⟩
      intro hmem
      rcases mem_keys_pushShift rest i s p.1 hmem with h | h
      · exact hnd2.1 h
      · exact hpi h

theorem keys_foldl_push_nodup (s : Shift) :
    ∀ (ids : List String) (m : List (String × List Shift)),
      (m.map Prod.fst).Nodup →
      ((ids.foldl (fun m2 i => pushShift m2 i s) m).map Prod.fst).Nodup
  | [], _, h => h
  | i :: rest, m, h => by
    rw [List.foldl_cons]
    exact keys_foldl_push_nodup s rest (pushShift m i s) (keys_pushShift_nodup m i s h)

theorem keys_foldl_buildStep_nodup (shifts : List Shift) :
    ∀ (schedule : ScheduleMap) (m : List (String × List Shift)),
      (m.map Prod.fst).Nodup →
      ((schedule.foldl (buildStep shifts) m).map Prod.fst).Nodup
  | [], _, h => h
  | p :: rest, m, h => by
    rw [List.foldl_cons]
    refine keys_foldl_buildStep_nodup shifts rest (buildStep shifts m p) ?_
    cases hf : shifts.find? (fun s => decide (s.id = p.1)) with
    | none =>
      rw [show buildStep shifts m p = m from by simp [buildStep, hf]]
      exact h
    | some s =>
      rw [show buildStep shifts m p =
          p.2.foldl (fun m2 i => pushShift m2 i s) m from by simp [buildStep, hf]]
      exact keys_foldl_push_nodup s p.2 m h

theorem keys_buildEmployeeShifts_nodup (schedule : ScheduleMap) (shifts : List Shift) :
    ((buildEmployeeShifts schedule shifts).map Prod.fst).Nodup :=
  keys_foldl_buildStep_nodup shifts schedule [] (by simp)

theorem foldl_setAssoc_counts :
    ∀ (g : List (String × List Shift)) (employees : List Employee) (f : Employee → ℚ),
      (employees.map Employee.id).Nodup →
      (g.map Prod.fst).Nodup →
      (∀ k ∈ g.map Prod.fst, k ∈ employees.map Employee.id) →
      g.foldl (fun m p => setAssoc m p.1 (nightCount p.2))
          (employees.map (fun e => (e.id, f e))) =
        employees.map (fun e => (e.id,
          match getAssoc g e.id with
          | some l => nightCount l
          | none => f e))
  | [], employees, f, _, _, _ => by simp [getAssoc]
  | p :: rest, employees, f, hN, hG, hK => by
    rw [List.foldl_cons]
    rw [setAssoc_map_employees p.1 (nightCount p.2) employees f hN (hK p.1 (by simp))]
    have hG2 : (rest.map Prod.fst).Nodup := by simpa using hG.of_cons
    have hK2 : ∀ k ∈ rest.map Prod.fst, k ∈ employees.map Employee.id := by
      intro k hk
      exact hK k (by simp [hk])
    rw [foldl_setAssoc_counts rest employees
      (fun e => if e.id = p.1 then nightCount p.2 else f e) hN hG2 hK2]
    apply List.map_congr_left
    intro e _
    have hp1 : p.1 ∉ rest.map Prod.fst := by
      have := hG
      simp only [List.map_cons, List.nodup_cons] at this
      exact this.1
    by_cases hpe : p.1 = e.id
    · have : getAssoc rest e.id = none :=
        getAssoc_eq_none_of_not_mem_keys rest e.id (hpe ▸ hp1)
      simp [getAssoc, hpe, this]
    · have hep : ¬ e.id = p.1 := fun hh => hpe hh.symm
      simp only [getAssoc, if_neg hpe]
      cases h2 : getAssoc rest e.id with
      | some l => simp
      | none => simp [hep]

theorem foldl_penaltyStep (avg : ℚ) :
    ∀ (entries : List (String × ℚ)) (acc : PenaltyResult),
      entries.foldl (penaltyStep avg) acc =
        { score := acc.score +
            (entries.map (fun p => if |p.2 - avg| > 1 then |p.2 - avg| ^ 2 * 10 else 0)).sum
          violations := acc.violations ++
            (entries.filter (fun p => decide (|p.2 - avg| > 1))).map
              (fun p => unevenViolation p.1 p.2 avg) }
  | [], acc => by simp
  | p :: rest, acc => by
    rw [List.foldl_cons, foldl_penaltyStep avg rest]
    by_cases h : |p.2 - avg| > 1
    · rw [show List.filter (fun p2 => decide (|p2.2 - avg| > 1)) (p :: rest) =
          p :: List.filter (fun p2 => decide (|p2.2 - avg| > 1)) rest from
        List.filter_cons_of_pos (decide_eq_true h)]
      simp only [penaltyStep, if_pos h, List.map_cons, List.sum_cons,
        PenaltyResult.mk.injEq]
      refine ⟨by ring, by simp⟩
    · rw [show List.filter (fun p2 => decide (|p2.2 - avg| > 1)) (p :: rest) =
          List.filter (fun p2 => decide (|p2.2 - avg| > 1)) rest from
        List.filter_cons_of_neg (by simpa using h)]
      simp [penaltyStep, h]

theorem specNightCount_nonneg (schedule : ScheduleMap) (shifts : List Shift)
    (k : String) : 0 ≤ specNightCount schedule shifts k := by
  apply List.sum_nonneg
  intro x hx
  rcases List.mem_map.mp hx with ⟨p, _, hp⟩
  subst hp
  cases shifts.find? (fun s => decide (s.id = p.1)) with
  | none => simp
  | some s =>
    by_cases h : s.type = ShiftType.night <;> simp [h]

theorem specNightTotal_nonneg (schedule : ScheduleMap) (employees : List Employee)
    (shifts : List Shift) : 0 ≤ specNightTotal schedule employees shifts := by
  apply List.sum_nonneg
  intro x hx
  rcases List.mem_map.mp hx with ⟨e, _, he⟩
  exact he ▸ specNightCount_nonneg schedule shifts e.id

theorem counts_list_eq (schedule : ScheduleMap) (employees : List Employee)
    (shifts : List Shift)
    (hN : (employees.map Employee.id).Nodup)
    (hK : ∀ p ∈ schedule, ∀ i ∈ p.2, i ∈ employees.map Employee.id) :
    (buildEmployeeShifts schedule shifts).foldl
        (fun m p => setAssoc m p.1 (nightCount p.2))
        (employees.foldl (fun m e => setAssoc m e.id 0) []) =
      employees.map (fun e => (e.id, specNightCount schedule shifts e.id)) := by
  have h0 : employees.foldl (fun m e => setAssoc m e.id 0) ([] : List (String × ℚ)) =
      employees.map (fun e => (e.id, (0 : ℚ))) := by
    simpa using foldl_setAssoc_fresh (0 : ℚ) employees [] (by simp [getAssoc]) hN
  rw [h0]
  have hKeys : ∀ k ∈ (buildEmployeeShifts schedule shifts).map Prod.fst,
      k ∈ employees.map Employee.id := by
    intro k hk
    rcases mem_keys_buildEmployeeShifts schedule shifts k hk with ⟨p, hp, hkp⟩
    exact hK p hp k hkp
  rw [foldl_setAssoc_counts (buildEmployeeShifts schedule shifts) employees (fun _ => 0)
    hN (keys_buildEmployeeShifts_nodup schedule shifts) hKeys]
  apply List.map_congr_left
  intro e _
  have hb := nightCount_buildEmployeeShifts schedule shifts e.id
  cases h2 : getAssoc (buildEmployeeShifts schedule shifts) e.id with
  | some l =>
    rw [h2] at hb
    simp only [Option.getD_some] at hb
    simp [hb]
  | none =>
    rw [h2] at hb
    simp only [Option.getD_none] at hb
    have hz : specNightCount schedule shifts e.id = 0 := by
      simpa [nightCount] using hb.symm
    simp [hz]

theorem calculatePenaltyScore_spec (schedule : ScheduleMap) (employees : List Employee)
    (shifts : List Shift)
    (hN : (employees.map Employee.id).Nodup)
    (hK : ∀ p ∈ schedule, ∀ i ∈ p.2, i ∈ employees.map Employee.id)
    (hE : employees ≠ []) :
    calculatePenaltyScore schedule employees shifts =
      { score := specNightScore schedule employees shifts
        violations := specNightViolations schedule employees shifts } := by
  have hlen : 0 < employees.length := List.length_pos.mpr hE
  simp only [calculatePenaltyScore]
  rw [counts_list_eq schedule employees shifts hN hK]
  have htot : ((employees.map (fun e => (e.id, specNightCount schedule shifts e.id))).map
      Prod.snd).sum = specNightTotal schedule employees shifts := by
    rw [List.map_map]
    rfl
  rw [htot]
  by_cases hpos : specNightTotal schedule employees shifts > 0
  · rw [if_pos ⟨hpos, hlen⟩]
    rw [foldl_penaltyStep]
    simp only [PenaltyResult.mk.injEq]
    constructor
    · rw [List.map_map, zero_add]
      simp only [specNightScore, specNightDeviation, specNightMean]
      rfl
    · rw [List.filter_map, List.map_map]
      simp only [specNightViolations, specNightDeviation, specNightMean]
      rfl
  · rw [if_neg (fun hc => hpos hc.1)]
    have h0 : specNightTotal schedule employees shifts = 0 :=
      le_antisymm (not_lt.mp hpos) (specNightTotal_nonneg schedule employees shifts)
    have hcnt : ∀ e ∈ employees, specNightCount schedule shifts e.id = 0 := by
      intro e he
      refine le_antisymm ?_ (specNightCount_nonneg schedule shifts e.id)
      have hle : specNightCount schedule shifts e.id ≤
          (employees.map (fun e2 => specNightCount schedule shifts e2.id)).sum := by
        refine List.single_le_sum ?_ _ (List.mem_map_of_mem _ he)
        intro x hx
        rcases List.mem_map.mp hx with ⟨e2, _, he2⟩
        exact he2 ▸ specNightCount_nonneg schedule shifts e2.id
      calc specNightCount schedule shifts e.id ≤ _ := hle
        _ = 0 := h0
    have hmean : specNightMean schedule employees shifts = 0 := by
      simp [specNightMean, h0]
    have hdev : ∀ e ∈ employees, specNightDeviation schedule employees shifts e = 0 := by
      intro e he
      simp [specNightDeviation, hmean, hcnt e he]
    have hscore : specNightScore schedule employees shifts = 0 := by
      apply List.sum_eq_zero
      intro x hx
      rcases List.mem_map.mp hx with ⟨e, he, hex⟩
      rw [← hex, hdev e he]
      norm_num
    have hviol : specNightViolations schedule employees shifts = [] := by
      have : (employees.filter
          (fun e => decide (specNightDeviation schedule employees shifts e > 1))) = [] := by
        apply List.filter_eq_nil.mpr
        intro e he
        simp [hdev e he]
      simp [specNightViolations, this]
    simp [hscore, hviol]

/-! ### Search-loop lemmas (claims C4, C5, C7) -/

theorem cloneSchedule_eq : ∀ schedule : ScheduleMap, cloneSchedule schedule = schedule
  | [] => rfl
  | p :: rest => by
    have ih := cloneSchedule_eq rest
    simp only [cloneSchedule] at ih
    simp only [cloneSchedule, List.map_cons, ih]

theorem calculatePenaltyScore_score_nonneg (schedule : ScheduleMap)
    (employees : List Employee) (shifts : List Shift) :
    0 ≤ (calculatePenaltyScore schedule employees shifts).score := by
  simp only [calculatePenaltyScore]
  split
  · rw [foldl_penaltyStep]
    simp only [zero_add]
    apply List.sum_nonneg
    intro x hx
    rcases List.mem_map.mp hx with ⟨p, _, hp⟩
    subst hp
    split
    · positivity
    · exact le_refl 0
  · simp

theorem energyOf_nonneg (hard : List ConstraintViolation) (soft : PenaltyResult)
    (h : 0 ≤ soft.score) : 0 ≤ energyOf hard soft := by
  have h2 : (0 : ℚ) ≤ (hard.length : ℚ) * 10000 := by positivity
  simp only [energyOf]
  linarith

theorem searchGo_of_stopped (o : Oracle) (employees : List Employee) (shifts : List Shift)
    (coolingRate : ℚ) :
    ∀ (fuel i : ℕ) (st : SearchState), st.stopped = true →
      searchGo o employees shifts coolingRate fuel i st = st
  | 0, _, _, _ => rfl
  | fuel + 1, i, st, h => by simp [searchGo, h]

theorem searchStepCore_min (coolingRate : ℚ) (acceptWorse : Bool) (st : SearchState)
    (nsch : ScheduleMap) (nH : List ConstraintViolation) (nS : PenaltyResult)
    (h : st.bestEnergy ≤ st.currentEnergy) :
    (searchStepCore coolingRate acceptWorse st nsch nH nS).bestEnergy =
      min st.bestEnergy
        (searchStepCore coolingRate acceptWorse st nsch nH nS).currentEnergy := by
  simp only [searchStepCore]
  split_ifs with c1 c2 c3 c4 c5 c6 c7 c8 c9 <;> simp_all <;> linarith

theorem searchStepCore_energyInv (coolingRate : ℚ) (acceptWorse : Bool) (st : SearchState)
    (nsch : ScheduleMap) (nH : List ConstraintViolation) (nS : PenaltyResult)
    (h1 : st.bestEnergy = energyOf st.bestHard st.bestSoft)
    (h2 : 0 ≤ st.bestSoft.score) (h3 : 0 ≤ nS.score) :
    (searchStepCore coolingRate acceptWorse st nsch nH nS).bestEnergy =
        energyOf (searchStepCore coolingRate acceptWorse st nsch nH nS).bestHard
          (searchStepCore coolingRate acceptWorse st nsch nH nS).bestSoft ∧
      0 ≤ (searchStepCore coolingRate acceptWorse st nsch nH nS).bestSoft.score := by
  simp only [searchStepCore]
  split_ifs <;> simp_all

theorem searchStepCore_iters_of_not_stopped (coolingRate : ℚ) (acceptWorse : Bool)
    (st : SearchState) (nsch : ScheduleMap) (nH : List ConstraintViolation)
    (nS : PenaltyResult)
    (h : (searchStepCore coolingRate acceptWorse st nsch nH nS).stopped = false) :
    (searchStepCore coolingRate acceptWorse st nsch nH nS).itersDone =
      st.itersDone + 1 := by
  simp only [searchStepCore] at h ⊢
  split_ifs at h ⊢ <;> simp_all

theorem searchStepCore_iters_of_stopped (coolingRate : ℚ) (acceptWorse : Bool)
    (st : SearchState) (nsch : ScheduleMap) (nH : List ConstraintViolation)
    (nS : PenaltyResult)
    (h : (searchStepCore coolingRate acceptWorse st nsch nH nS).stopped = true) :
    (searchStepCore coolingRate acceptWorse st nsch nH nS).itersDone =
      st.itersDone := by
  simp only [searchStepCore] at h ⊢
  split_ifs at h ⊢ <;> simp_all

theorem searchStepCore_stopped_of_stopped (coolingRate : ℚ) (acceptWorse : Bool)
    (st : SearchState) (nsch : ScheduleMap) (nH : List ConstraintViolation)
    (nS : PenaltyResult) (h : st.stopped = true) :
    (searchStepCore coolingRate acceptWorse st nsch nH nS).stopped = true := by
  simp only [searchStepCore]
  split_ifs <;> simp_all

theorem searchStepCore_stop_best_zero (coolingRate : ℚ) (acceptWorse : Bool)
    (st : SearchState) (nsch : ScheduleMap) (nH : List ConstraintViolation)
    (nS : PenaltyResult) (h0 : st.stopped = false)
    (h : (searchStepCore coolingRate acceptWorse st nsch nH nS).stopped = true) :
    (searchStepCore coolingRate acceptWorse st nsch nH nS).bestEnergy = 0 := by
  simp only [searchStepCore] at h ⊢
  split_ifs at h ⊢ <;> simp_all

theorem searchStepCore_best_zero_back (coolingRate : ℚ) (acceptWorse : Bool)
    (st : SearchState) (nsch : ScheduleMap) (nH : List ConstraintViolation)
    (nS : PenaltyResult) (h0 : st.stopped = false)
    (h1 : (searchStepCore coolingRate acceptWorse st nsch nH nS).stopped = false)
    (h2 : (searchStepCore coolingRate acceptWorse st nsch nH nS).bestEnergy = 0) :
    st.bestEnergy = 0 := by
  simp only [searchStepCore] at h1 h2
  split_ifs at h1 h2 <;> simp_all

theorem searchStepCore_schedule_pred (P : ScheduleMap → Prop) (coolingRate : ℚ)
    (acceptWorse : Bool) (st : SearchState) (nsch : ScheduleMap)
    (nH : List ConstraintViolation) (nS : PenaltyResult)
    (h1 : P st.currentSchedule) (h2 : P st.bestSchedule) (h3 : P nsch) :
    P (searchStepCore coolingRate acceptWorse st nsch nH nS).currentSchedule ∧
      P (searchStepCore coolingRate acceptWorse st nsch nH nS).bestSchedule := by
  simp only [searchStepCore]
  split_ifs <;> simp_all [cloneSchedule_eq]

theorem searchStep_min (o : Oracle) (employees : List Employee) (shifts : List Shift)
    (coolingRate : ℚ) (i : ℕ) (st : SearchState)
    (h : st.bestEnergy ≤ st.currentEnergy) :
    (searchStep o employees shifts coolingRate i st).bestEnergy =
      min st.bestEnergy (searchStep o employees shifts coolingRate i st).currentEnergy :=
  searchStepCore_min coolingRate (o.acceptWorse i) st _ _ _ h

theorem searchStep_best_le (o : Oracle) (employees : List Employee) (shifts : List Shift)
    (coolingRate : ℚ) (i : ℕ) (st : SearchState)
    (h : st.bestEnergy ≤ st.currentEnergy) :
    (searchStep o employees shifts coolingRate i st).bestEnergy ≤ st.bestEnergy := by
  rw [searchStep_min o employees shifts coolingRate i st h]
  exact min_le_left _ _

theorem searchStep_best_le_current (o : Oracle) (employees : List Employee)
    (shifts : List Shift) (coolingRate : ℚ) (i : ℕ) (st : SearchState)
    (h : st.bestEnergy ≤ st.currentEnergy) :
    (searchStep o employees shifts coolingRate i st).bestEnergy ≤
      (searchStep o employees shifts coolingRate i st).currentEnergy := by
  rw [searchStep_min o employees shifts coolingRate i st h]
  exact min_le_right _ _

theorem searchGo_best_inv (o : Oracle) (employees : List Employee) (shifts : List Shift)
    (coolingRate : ℚ) :
    ∀ (fuel i : ℕ) (st : SearchState), st.bestEnergy ≤ st.currentEnergy →
      (searchGo o employees shifts coolingRate fuel i st).bestEnergy ≤ st.bestEnergy ∧
        (searchGo o employees shifts coolingRate fuel i st).bestEnergy ≤
          (searchGo o employees shifts coolingRate fuel i st).currentEnergy
  | 0, _, st, h => ⟨le_refl _, h⟩
  | fuel + 1, i, st, h => by
    cases hst : st.stopped with
    | true =>
      rw [searchGo_of_stopped o employees shifts coolingRate (fuel + 1) i st hst]
      exact ⟨le_refl _, h⟩
    | false =>
      have hgo : searchGo o employees shifts coolingRate (fuel + 1) i st =
          searchGo o employees shifts coolingRate fuel (i + 1)
            (searchStep o employees shifts coolingRate i st) := by
        simp [searchGo, hst]
      rw [hgo]
      have h2 := searchStep_best_le_current o employees shifts coolingRate i st h
      have h1 := searchStep_best_le o employees shifts coolingRate i st h
      have ih := searchGo_best_inv o employees shifts coolingRate fuel (i + 1)
        (searchStep o employees shifts coolingRate i st) h2
      exact ⟨le_trans ih.1 h1, ih.2⟩

theorem searchGo_add (o : Oracle) (employees : List Employee) (shifts : List Shift)
    (coolingRate : ℚ) :
    ∀ (a b i : ℕ) (st : SearchState),
      searchGo o employees shifts coolingRate (a + b) i st =
        searchGo o employees shifts coolingRate b (i + a)
          (searchGo o employees shifts coolingRate a i st)
  | 0, b, i, st => by simp [searchGo]
  | a + 1, b, i, st => by
    cases hst : st.stopped with
    | true =>
      rw [searchGo_of_stopped o employees shifts coolingRate (a + 1 + b) i st hst,
        searchGo_of_stopped o employees shifts coolingRate (a + 1) i st hst,
        searchGo_of_stopped o employees shifts coolingRate b (i + (a + 1)) st hst]
    | false =>
      have hgo1 : searchGo o employees shifts coolingRate (a + 1 + b) i st =
          searchGo o employees shifts coolingRate (a + b) (i + 1)
            (searchStep o employees shifts coolingRate i st) := by
        rw [show a + 1 + b = (a + b) + 1 from by omega]
        simp [searchGo, hst]
      have hgo2 : searchGo o employees shifts coolingRate (a + 1) i st =
          searchGo o employees shifts coolingRate a (i + 1)
            (searchStep o employees shifts coolingRate i st) := by
        simp [searchGo, hst]
      rw [hgo1, hgo2, searchGo_add o employees shifts coolingRate a b (i + 1)
        (searchStep o employees shifts coolingRate i st)]
      rw [show i + 1 + a = i + (a + 1) from by omega]

/-- The loop invariant used for early-exit reasoning: the tracked best
energy is the energy of the tracked best evaluation, whose soft score is
nonnegative. -/
def EnergyInv (st : SearchState) : Prop :=
  st.bestEnergy = energyOf st.bestHard st.bestSoft ∧ 0 ≤ st.bestSoft.score

theorem searchStep_energyInv (o : Oracle) (employees : List Employee)
    (shifts : List Shift) (coolingRate : ℚ) (i : ℕ) (st : SearchState)
    (h : EnergyInv st) : EnergyInv (searchStep o employees shifts coolingRate i st) :=
  searchStepCore_energyInv coolingRate (o.acceptWorse i) st _ _ _ h.1 h.2
    (calculatePenaltyScore_score_nonneg _ employees shifts)

theorem searchGo_energyInv (o : Oracle) (employees : List Employee) (shifts : List Shift)
    (coolingRate : ℚ) :
    ∀ (fuel i : ℕ) (st : SearchState), EnergyInv st →
      EnergyInv (searchGo o employees shifts coolingRate fuel i st)
  | 0, _, _, h => h
  | fuel + 1, i, st, h => by
    cases hst : st.stopped with
    | true =>
      rw [searchGo_of_stopped o employees shifts coolingRate (fuel + 1) i st hst]
      exact h
    | false =>
      have hgo : searchGo o employees shifts coolingRate (fuel + 1) i st =
          searchGo o employees shifts coolingRate fuel (i + 1)
            (searchStep o employees shifts coolingRate i st) := by
        simp [searchGo, hst]
      rw [hgo]
      exact searchGo_energyInv o employees shifts coolingRate fuel (i + 1) _
        (searchStep_energyInv o employees shifts coolingRate i st h)

theorem searchStep_iters_of_not_stopped (o : Oracle) (employees : List Employee)
    (shifts : List Shift) (coolingRate : ℚ) (i : ℕ) (st : SearchState)
    (h : (searchStep o employees shifts coolingRate i st).stopped = false) :
    (searchStep o employees shifts coolingRate i st).itersDone = st.itersDone + 1 :=
  searchStepCore_iters_of_not_stopped coolingRate (o.acceptWorse i) st _ _ _ h

theorem searchStep_iters_of_stopped (o : Oracle) (employees : List Employee)
    (shifts : List Shift) (coolingRate : ℚ) (i : ℕ) (st : SearchState)
    (h : (searchStep o employees shifts coolingRate i st).stopped = true) :
    (searchStep o employees shifts coolingRate i st).itersDone = st.itersDone :=
  searchStepCore_iters_of_stopped coolingRate (o.acceptWorse i) st _ _ _ h

theorem searchStep_best_zero_back (o : Oracle) (employees : List Employee)
    (shifts : List Shift) (coolingRate : ℚ) (i : ℕ) (st : SearchState)
    (h0 : st.stopped = false)
    (h1 : (searchStep o employees shifts coolingRate i st).stopped = false)
    (h2 : (searchStep o employees shifts coolingRate i st).bestEnergy = 0) :
    st.bestEnergy = 0 :=
  searchStepCore_best_zero_back coolingRate (o.acceptWorse i) st _ _ _ h0 h1 h2

theorem searchGo_iters_of_not_stopped (o : Oracle) (employees : List Employee)
    (shifts : List Shift) (coolingRate : ℚ) :
    ∀ (fuel i : ℕ) (st : SearchState), st.stopped = false →
      (searchGo o employees shifts coolingRate fuel i st).stopped = false →
      (searchGo o employees shifts coolingRate fuel i st).itersDone =
        st.itersDone + fuel
  | 0, _, _, _, _ => by simp [searchGo]
  | fuel + 1, i, st, h0, h1 => by
    have hgo : searchGo o employees shifts coolingRate (fuel + 1) i st =
        searchGo o employees shifts coolingRate fuel (i + 1)
          (searchStep o employees shifts coolingRate i st) := by
      simp [searchGo, h0]
    rw [hgo] at h1 ⊢
    cases hs1 : (searchStep o employees shifts coolingRate i st).stopped with
    | true =>
      rw [searchGo_of_stopped o employees shifts coolingRate fuel (i + 1) _ hs1] at h1
      rw [h1] at hs1
      cases hs1
    | false =>
      rw [searchGo_iters_of_not_stopped o employees shifts coolingRate fuel (i + 1) _ hs1 h1]
      rw [searchStep_iters_of_not_stopped o employees shifts coolingRate i st hs1]
      omega

theorem searchGo_iters_of_stopped (o : Oracle) (employees : List Employee)
    (shifts : List Shift) (coolingRate : ℚ) :
    ∀ (fuel i : ℕ) (st : SearchState), st.stopped = false →
      (searchGo o employees shifts coolingRate fuel i st).stopped = true →
      (searchGo o employees shifts coolingRate fuel i st).itersDone <
        st.itersDone + fuel
  | 0, i, st, h0, h1 => by
    simp only [searchGo] at h1
    rw [h1] at h0
    cases h0
  | fuel + 1, i, st, h0, h1 => by
    have hgo : searchGo o employees shifts coolingRate (fuel + 1) i st =
        searchGo o employees shifts coolingRate fuel (i + 1)
          (searchStep o employees shifts coolingRate i st) := by
      simp [searchGo, h0]
    rw [hgo] at h1 ⊢
    cases hs1 : (searchStep o employees shifts coolingRate i st).stopped with
    | true =>
      rw [searchGo_of_stopped o employees shifts coolingRate fuel (i + 1) _ hs1]
      rw [searchStep_iters_of_stopped o employees shifts coolingRate i st hs1]
      omega
    | false =>
      have := searchGo_iters_of_stopped o employees shifts coolingRate fuel (i + 1) _ hs1 h1
      rw [searchStep_iters_of_not_stopped o employees shifts coolingRate i st hs1] at this
      omega

theorem searchGo_best_zero_back (o : Oracle) (employees : List Employee)
    (shifts : List Shift) (coolingRate : ℚ) :
    ∀ (fuel i : ℕ) (st : SearchState), st.stopped = false →
      (searchGo o employees shifts coolingRate fuel i st).stopped = false →
      (searchGo o employees shifts coolingRate fuel i st).bestEnergy = 0 →
      st.bestEnergy = 0
  | 0, _, _, _, _, h2 => h2
  | fuel + 1, i, st, h0, h1, h2 => by
    have hgo : searchGo o employees shifts coolingRate (fuel + 1) i st =
        searchGo o employees shifts coolingRate fuel (i + 1)
          (searchStep o employees shifts coolingRate i st) := by
      simp [searchGo, h0]
    rw [hgo] at h1 h2
    cases hs1 : (searchStep o employees shifts coolingRate i st).stopped with
    | true =>
      rw [searchGo_of_stopped o employees shifts coolingRate fuel (i + 1) _ hs1] at h1
      rw [h1] at hs1
      cases hs1
    | false =>
      have hstep := searchGo_best_zero_back o employees shifts coolingRate fuel (i + 1) _
        hs1 h1 h2
      exact searchStep_best_zero_back o employees shifts coolingRate i st h0 hs1 hstep

theorem runSearch_best_zero_isValid (employees : List Employee) (shifts : List Shift)
    (options : SchedulerOptions) (o : Oracle)
    (h : (runSearchState employees shifts options o).bestEnergy = 0) :
    (runHeuristicSearch employees shifts options o).isValid = true := by
  have hinv : EnergyInv (runSearchState employees shifts options o) := by
    apply searchGo_energyInv
    exact ⟨rfl, calculatePenaltyScore_score_nonneg _ _ _⟩
  obtain ⟨h1, h2⟩ := hinv
  rw [h] at h1
  have hlen : (runSearchState employees shifts options o).bestHard.length = 0 := by
    by_contra hne
    have hge : 1 ≤ (runSearchState employees shifts options o).bestHard.length :=
      Nat.one_le_iff_ne_zero.mpr hne
    have hq : (1 : ℚ) ≤ ((runSearchState employees shifts options o).bestHard.length : ℚ) := by
      exact_mod_cast hge
    have := h1
    simp only [energyOf] at this
    nlinarith
  simp [runHeuristicSearch, evaluationOf, hlen]

theorem runSearch_zero_early_exit (employees : List Employee) (shifts : List Shift)
    (options : SchedulerOptions) (o : Oracle)
    (h : (runSearchState employees shifts options o).bestEnergy = 0)
    (h0 : (initSearchState employees shifts (orDefaultQ options.startTemperature 100)
      o).bestEnergy ≠ 0) :
    (runSearchState employees shifts options o).itersDone <
      orDefaultNat options.maxIterations 5000 := by
  by_cases hs : (runSearchState employees shifts options o).stopped = true
  · have hlt := searchGo_iters_of_stopped o employees shifts
      (orDefaultQ options.coolingRate (95 / 100))
      (orDefaultNat options.maxIterations 5000) 0
      (initSearchState employees shifts (orDefaultQ options.startTemperature 100) o)
      rfl hs
    have hinit : (initSearchState employees shifts
        (orDefaultQ options.startTemperature 100) o).itersDone = 0 := rfl
    rw [hinit, Nat.zero_add] at hlt
    exact hlt
  · have hz := searchGo_best_zero_back o employees shifts
      (orDefaultQ options.coolingRate (95 / 100))
      (orDefaultNat options.maxIterations 5000) 0
      (initSearchState employees shifts (orDefaultQ options.startTemperature 100) o)
      rfl (by simpa using hs) h
    exact absurd hz h0

/-! ### Empty-input behaviour (claims C7 and C1) -/

theorem pickAssignees_nil (r : ℕ → ℕ) :
    ∀ (need ctr : ℕ), pickAssignees r need [] ctr = ([], ctr)
  | 0, _ => rfl
  | _ + 1, _ => by simp [pickAssignees]

theorem mem_setAssoc {α : Type} :
    ∀ (m : List (String × α)) (k : String) (v : α) (q : String × α),
      q ∈ setAssoc m k v → q ∈ m ∨ q = (k, v)
  | [], _, _, q => by simp [setAssoc]
  | p :: rest, k, v, q => by
    by_cases hp : p.1 = k
    · simp only [setAssoc, if_pos hp, List.mem_cons]
      rintro (h | h)
      · exact Or.inr h
      · exact Or.inl (Or.inr h)
    · simp only [setAssoc, if_neg hp, List.mem_cons]
      rintro (h | h)
      · exact Or.inl (Or.inl h)
      · rcases mem_setAssoc rest k v q h with h2 | h2
        · exact Or.inl (Or.inr h2)
        · exact Or.inr h2

theorem initScheduleGo_nil_employees (r : ℕ → ℕ) :
    ∀ (shifts : List Shift) (sched : ScheduleMap) (ctr : ℕ),
      (∀ p ∈ sched, p.2 = ([] : List String)) →
      ∀ p ∈ initScheduleGo [] r shifts sched ctr, p.2 = ([] : List String)
  | [], _, _, h => h
  | s :: rest, sched, ctr, h => by
    simp only [initScheduleGo, pickAssignees_nil]
    apply initScheduleGo_nil_employees r rest (setAssoc sched s.id []) (ctr)
    intro p hp
    rcases mem_setAssoc sched s.id [] p hp with h2 | h2
    · exact h p h2
    · rw [h2]

theorem generateRandomInitialSchedule_empty (employees : List Employee)
    (shifts : List Shift) (r : ℕ → ℕ) (h : employees = [] ∨ shifts = []) :
    ∀ p ∈ generateRandomInitialSchedule employees shifts r, p.2 = ([] : List String) := by
  rcases h with h | h
  · subst h
    exact initScheduleGo_nil_employees r shifts [] 0 (by simp)
  · subst h
    simp [generateRandomInitialSchedule, initScheduleGo]

theorem foldl_buildStep_of_nil_assignments (shifts : List Shift) :
    ∀ (schedule : ScheduleMap) (m : List (String × List Shift)),
      (∀ p ∈ schedule, p.2 = ([] : List String)) →
      schedule.foldl (buildStep shifts) m = m
  | [], _, _ => rfl
  | p :: rest, m, h => by
    rw [List.foldl_cons]
    have hp : p.2 = [] := h p (by simp)
    have hstep : buildStep shifts m p = m := by
      cases hf : shifts.find? (fun s => decide (s.id = p.1)) with
      | none => simp [buildStep, hf]
      | some s => simp [buildStep, hf, hp]
    rw [hstep]
    exact foldl_buildStep_of_nil_assignments shifts rest m (fun q hq => h q (by simp [hq]))

theorem buildEmployeeShifts_of_nil_assignments (schedule : ScheduleMap)
    (shifts : List Shift) (h : ∀ p ∈ schedule, p.2 = ([] : List String)) :
    buildEmployeeShifts schedule shifts = [] :=
  foldl_buildStep_of_nil_assignments shifts schedule [] h

theorem validateHardConstraints_of_nil_assignments (schedule : ScheduleMap)
    (employees : List Employee) (shifts : List Shift)
    (h : ∀ p ∈ schedule, p.2 = ([] : List String)) :
    validateHardConstraints schedule employees shifts = [] := by
  rw [validateHardConstraints, buildEmployeeShifts_of_nil_assignments schedule shifts h]
  rfl

theorem counts0_values_zero :
    ∀ (employees : List Employee) (m : List (String × ℚ)),
      (∀ q ∈ m, q.2 = 0) →
      ∀ q ∈ employees.foldl (fun m2 e => setAssoc m2 e.id 0) m, q.2 = 0
  | [], _, h => h
  | e :: rest, m, h => by
    rw [List.foldl_cons]
    apply counts0_values_zero rest
    intro q hq
    rcases mem_setAssoc m e.id 0 q hq with h2 | h2
    · exact h q h2
    · rw [h2]

theorem calculatePenaltyScore_of_empty_groups (schedule : ScheduleMap)
    (employees : List Employee) (shifts : List Shift)
    (h : buildEmployeeShifts schedule shifts = []) :
    calculatePenaltyScore schedule employees shifts = { score := 0, violations := [] } := by
  simp only [calculatePenaltyScore, h, List.foldl_nil]
  have hzero : ((employees.foldl (fun m2 e => setAssoc m2 e.id 0)
      ([] : List (String × ℚ))).map Prod.snd).sum = 0 := by
    apply List.sum_eq_zero
    intro x hx
    rcases List.mem_map.mp hx with ⟨q, hq, hqx⟩
    rw [← hqx]
    exact counts0_values_zero employees [] (by simp) q hq
  rw [hzero]
  norm_num

theorem mutateSchedule_of_empty (schedule : ScheduleMap) (employees : List Employee)
    (shifts : List Shift) (c : MutationChoice) (h : employees = [] ∨ shifts = []) :
    mutateSchedule schedule employees shifts c = schedule := by
  have hlen : shifts.length = 0 ∨ employees.length = 0 := by
    rcases h with h | h <;> simp [h]
  rw [mutateSchedule, dif_pos hlen]
  exact cloneSchedule_eq schedule

/-- Loop invariant for degenerate inputs: the whole state stays at the
initial schedule with zero energy and no violations. -/
def FrozenInv (sch0 : ScheduleMap) (st : SearchState) : Prop :=
  st.currentSchedule = sch0 ∧ st.currentHard = [] ∧
    st.currentSoft = { score := 0, violations := [] } ∧ st.currentEnergy = 0 ∧
    st.bestSchedule = sch0 ∧ st.bestHard = [] ∧
    st.bestSoft = { score := 0, violations := [] } ∧ st.bestEnergy = 0 ∧
    st.stopped = false

theorem searchStepCore_frozen (coolingRate : ℚ) (acceptWorse : Bool)
    (st : SearchState) (sch0 : ScheduleMap) (h : FrozenInv sch0 st) :
    FrozenInv sch0 (searchStepCore coolingRate acceptWorse st sch0 []
      { score := 0, violations := [] }) := by
  obtain ⟨h1, h2, h3, h4, h5, h6, h7, h8, h9⟩ := h
  simp only [searchStepCore, FrozenInv]
  split_ifs <;> simp_all [energyOf]

theorem searchGo_frozen (o : Oracle) (employees : List Employee) (shifts : List Shift)
    (coolingRate : ℚ) (sch0 : ScheduleMap)
    (hempty : employees = [] ∨ shifts = [])
    (hv : validateHardConstraints sch0 employees shifts = [])
    (hp : calculatePenaltyScore sch0 employees shifts = { score := 0, violations := [] }) :
    ∀ (fuel i : ℕ) (st : SearchState), FrozenInv sch0 st →
      FrozenInv sch0 (searchGo o employees shifts coolingRate fuel i st)
  | 0, _, _, h => h
  | fuel + 1, i, st, h => by
    have hst : st.stopped = false := h.2.2.2.2.2.2.2.2
    have hgo : searchGo o employees shifts coolingRate (fuel + 1) i st =
        searchGo o employees shifts coolingRate fuel (i + 1)
          (searchStep o employees shifts coolingRate i st) := by
      simp [searchGo, hst]
    rw [hgo]
    apply searchGo_frozen o employees shifts coolingRate sch0 hempty hv hp fuel (i + 1)
    have hnb : mutateSchedule st.currentSchedule employees shifts (o.mutChoice i) = sch0 := by
      rw [h.1]
      exact mutateSchedule_of_empty sch0 employees shifts (o.mutChoice i) hempty
    have hstep : searchStep o employees shifts coolingRate i st =
        searchStepCore coolingRate (o.acceptWorse i) st sch0 []
          { score := 0, violations := [] } := by
      simp only [searchStep, hnb, hv, hp]
    rw [hstep]
    exact searchStepCore_frozen coolingRate (o.acceptWorse i) st sch0 h

theorem runHeuristicSearch_empty (employees : List Employee) (shifts : List Shift)
    (options : SchedulerOptions) (o : Oracle) (h : employees = [] ∨ shifts = []) :
    runHeuristicSearch employees shifts options o =
      { schedule := generateRandomInitialSchedule employees shifts o.initPick
        isValid := true
        penaltyScore := 0
        constraintViolations := [] } := by
  have hnil : ∀ p ∈ generateRandomInitialSchedule employees shifts o.initPick,
      p.2 = ([] : List String) :=
    generateRandomInitialSchedule_empty employees shifts o.initPick h
  have hBES : buildEmployeeShifts
      (generateRandomInitialSchedule employees shifts o.initPick) shifts = [] :=
    buildEmployeeShifts_of_nil_assignments _ shifts hnil
  have hv : validateHardConstraints
      (generateRandomInitialSchedule employees shifts o.initPick) employees shifts = [] := by
    rw [validateHardConstraints, hBES]
    rfl
  have hp : calculatePenaltyScore
      (generateRandomInitialSchedule employees shifts o.initPick) employees shifts =
      { score := 0, violations := [] } :=
    calculatePenaltyScore_of_empty_groups _ employees shifts hBES
  have hinit : FrozenInv (generateRandomInitialSchedule employees shifts o.initPick)
      (initSearchState employees shifts (orDefaultQ options.startTemperature 100) o) := by
    refine ⟨rfl, hv, hp, ?_, ?_, hv, hp, ?_, rfl⟩
    · show energyOf
        (validateHardConstraints (generateRandomInitialSchedule employees shifts o.initPick)
          employees shifts)
        (calculatePenaltyScore (generateRandomInitialSchedule employees shifts o.initPick)
          employees shifts) = 0
      rw [hv, hp]
      simp [energyOf]
    · exact cloneSchedule_eq _
    · show energyOf
        (validateHardConstraints (generateRandomInitialSchedule employees shifts o.initPick)
          employees shifts)
        (calculatePenaltyScore (generateRandomInitialSchedule employees shifts o.initPick)
          employees shifts) = 0
      rw [hv, hp]
      simp [energyOf]
  have hfin := searchGo_frozen o employees shifts
    (orDefaultQ options.coolingRate (95 / 100))
    (generateRandomInitialSchedule employees shifts o.initPick) h hv hp
    (orDefaultNat options.maxIterations 5000) 0 _ hinit
  obtain ⟨f1, f2, f3, f4, f5, f6, f7, f8, f9⟩ := hfin
  simp only [runHeuristicSearch, evaluationOf, runSearchState, searchStateAt]
  rw [f5]
  simp [f6, f7]

/-! ### Duplicate-freedom of assignments (claim C6) -/

theorem nodup_set_of_not_mem :
    ∀ (l : List String) (i : ℕ) (a : String), l.Nodup → a ∉ l → (l.set i a).Nodup
  | [], _, _, _, _ => List.nodup_nil
  | x :: rest, 0, a, hnd, ha => by
    simp only [List.set]
    simp only [List.nodup_cons] at hnd ⊢
    exact ⟨fun hm => ha (by simp [hm]), hnd.2⟩
  | x :: rest, i + 1, a, hnd, ha => by
    simp only [List.set]
    simp only [List.nodup_cons] at hnd ⊢
    refine ⟨?_, nodup_set_of_not_mem rest i a hnd.2 (fun hm => ha (by simp [hm]))⟩
    intro hm
    rcases List.mem_or_eq_of_mem_set hm with h2 | h2
    · exact hnd.1 h2
    · exact ha (by simp [h2])

theorem getAssoc_eq_some_mem {α : Type} :
    ∀ (m : List (String × α)) (k : String) (v : α),
      getAssoc m k = some v → (k, v) ∈ m
  | [], _, _, h => by simp [getAssoc] at h
  | p :: rest, k, v, h => by
    by_cases hp : p.1 = k
    · simp only [getAssoc, if_pos hp, Option.some.injEq] at h
      have hkv : (k, v) = p := by rw [← hp, ← h]
      rw [hkv]
      exact List.mem_cons_self p rest
    · simp only [getAssoc, if_neg hp] at h
      exact List.mem_cons_of_mem p (getAssoc_eq_some_mem rest k v h)

theorem getAssoc_getD_nodup (m : ScheduleMap) (k : String)
    (h : ∀ p ∈ m, p.2.Nodup) : ((getAssoc m k).getD []).Nodup := by
  cases hg : getAssoc m k with
  | none => simp
  | some v =>
    simp only [Option.getD_some]
    exact h (k, v) (getAssoc_eq_some_mem m k v hg)

theorem setAssoc_forall_snd {α : Type} (P : α → Prop) (m : List (String × α))
    (k : String) (v : α) (hm : ∀ p ∈ m, P p.2) (hv : P v) :
    ∀ p ∈ setAssoc m k v, P p.2 := by
  intro p hp
  rcases mem_setAssoc m k v p hp with h | h
  · exact hm p h
  · rw [h]
    exact hv

theorem get_id_not_mem (l : List Employee) (aids : List String) (n : ℕ)
    (hp : n < l.length) (hl : ∀ e ∈ l, e.id ∉ aids) :
    (l.get ⟨n, hp⟩).id ∉ aids :=
  hl _ (List.get_mem l n hp)

theorem mutateSchedule_nodup (schedule : ScheduleMap) (employees : List Employee)
    (shifts : List Shift) (c : MutationChoice)
    (h : ∀ p ∈ schedule, p.2.Nodup) :
    ∀ p ∈ mutateSchedule schedule employees shifts c, p.2.Nodup := by
  simp only [mutateSchedule, cloneSchedule_eq]
  split_ifs with g1 g2 g3 g4 g5 g6
  · exact h
  · exact h
  · apply setAssoc_forall_snd _ schedule _ _ h
    apply nodup_set_of_not_mem _ _ _ (getAssoc_getD_nodup schedule _ h)
    apply get_id_not_mem
    intro e he
    have hflt := (List.mem_filter.mp he).2
    rw [cloneSchedule_eq] at hflt
    simpa using hflt
  · apply setAssoc_forall_snd
    · apply setAssoc_forall_snd _ schedule _ _ h
      exact nodup_set_of_not_mem _ _ _ (getAssoc_getD_nodup schedule _ h)
        (by simpa using g6.1)
    · exact nodup_set_of_not_mem _ _ _ (getAssoc_getD_nodup schedule _ h)
        (by simpa using g6.2)
  · exact h
  · exact h
  · exact h

theorem map_eraseIdx {α β : Type} (f : α → β) :
    ∀ (l : List α) (i : ℕ), (l.eraseIdx i).map f = (l.map f).eraseIdx i
  | [], _ => rfl
  | _ :: _, 0 => rfl
  | x :: rest, i + 1 => by
    simp only [List.eraseIdx, List.map_cons]
    rw [map_eraseIdx f rest i]

theorem nodup_get_not_mem_eraseIdx :
    ∀ (l : List String) (i : ℕ) (h : i < l.length),
      l.Nodup → l.get ⟨i, h⟩ ∉ l.eraseIdx i
  | x :: rest, 0, _, hnd => by
    simp only [List.get, List.eraseIdx]
    exact (List.nodup_cons.mp hnd).1
  | x :: rest, i + 1, h, hnd => by
    have h' : i < rest.length := by simpa using h
    simp only [List.get, List.eraseIdx, List.mem_cons]
    rintro (h2 | h2)
    · exact (List.nodup_cons.mp hnd).1 (h2 ▸ List.get_mem rest i h')
    · exact nodup_get_not_mem_eraseIdx rest i h' (List.nodup_cons.mp hnd).2 h2

theorem pickAssignees_nodup (r : ℕ → ℕ) :
    ∀ (need : ℕ) (avail : List Employee) (ctr : ℕ),
      (avail.map Employee.id).Nodup →
      (pickAssignees r need avail ctr).1.Nodup ∧
        ∀ x ∈ (pickAssignees r need avail ctr).1, x ∈ avail.map Employee.id
  | 0, _, _, _ => ⟨List.nodup_nil, by simp [pickAssignees]⟩
  | need + 1, avail, ctr, hnd => by
    by_cases h : avail.length = 0
    · simp [pickAssignees, h]
    · have hlt : r ctr % avail.length < avail.length :=
        Nat.mod_lt _ (Nat.pos_of_ne_zero h)
      have herase : ((avail.eraseIdx (r ctr % avail.length)).map Employee.id).Nodup := by
        rw [map_eraseIdx]
        exact (List.eraseIdx_sublist _ _).nodup hnd
      have ih := pickAssignees_nodup r need (avail.eraseIdx (r ctr % avail.length))
        (ctr + 1) herase
      have hgetid : (avail.get ⟨r ctr % avail.length, hlt⟩).id =
          (avail.map Employee.id).get ⟨r ctr % avail.length, by simpa using hlt⟩ := by
        simp
      have hnotmem : (avail.get ⟨r ctr % avail.length, hlt⟩).id ∉
          (avail.eraseIdx (r ctr % avail.length)).map Employee.id := by
        rw [map_eraseIdx, hgetid]
        exact nodup_get_not_mem_eraseIdx (avail.map Employee.id) _ (by simpa using hlt) hnd
      constructor
      · simp only [pickAssignees, dif_neg h]
        rw [List.nodup_cons]
        exact ⟨fun hm => hnotmem (ih.2 _ hm), ih.1⟩
      · intro x hx
        simp only [pickAssignees, dif_neg h] at hx
        rcases List.mem_cons.mp hx with h2 | h2
        · rw [h2]
          exact List.mem_map_of_mem Employee.id (List.get_mem avail _ hlt)
        · have := ih.2 x h2
          rcases List.mem_map.mp this with ⟨e, he, hex⟩
          have : e ∈ avail := (List.eraseIdx_sublist avail _).mem he
          exact hex ▸ List.mem_map_of_mem Employee.id this

theorem initScheduleGo_nodup (employees : List Employee) (r : ℕ → ℕ)
    (hemp : (employees.map Employee.id).Nodup) :
    ∀ (shifts : List Shift) (sched : ScheduleMap) (ctr : ℕ),
      (∀ p ∈ sched, p.2.Nodup) →
      ∀ p ∈ initScheduleGo employees r shifts sched ctr, p.2.Nodup
  | [], _, _, h => h
  | s :: rest, sched, ctr, h => by
    simp only [initScheduleGo]
    apply initScheduleGo_nodup employees r hemp rest _ _
    apply setAssoc_forall_snd _ sched _ _ h
    exact (pickAssignees_nodup r s.minRequiredEmployees employees ctr hemp).1

theorem generateRandomInitialSchedule_nodup (employees : List Employee)
    (shifts : List Shift) (r : ℕ → ℕ)
    (hemp : (employees.map Employee.id).Nodup) :
    ∀ p ∈ generateRandomInitialSchedule employees shifts r, p.2.Nodup :=
  initScheduleGo_nodup employees r hemp shifts [] 0 (by simp)

/-! ### Slot preservation (claim C10) -/

theorem getAssoc_setAssoc {α : Type} :
    ∀ (m : List (String × α)) (k : String) (v : α) (k2 : String),
      getAssoc (setAssoc m k v) k2 = if k2 = k then some v else getAssoc m k2
  | [], k, v, k2 => by
    by_cases h : k2 = k
    · subst h
      simp [setAssoc, getAssoc]
    · have h2 : ¬ k = k2 := fun hh => h hh.symm
      simp [setAssoc, getAssoc, h, h2]
  | p :: rest, k, v, k2 => by
    by_cases hpk : p.1 = k
    · by_cases hk2 : k2 = k
      · subst hk2
        simp [setAssoc, getAssoc, hpk]
      · have hkk2 : ¬ k = k2 := fun hh => hk2 hh.symm
        have hpk2 : ¬ p.1 = k2 := fun hh => hk2 (hh ▸ hpk)
        simp [setAssoc, getAssoc, hpk, hk2, hkk2, hpk2]
    · by_cases hpk2 : p.1 = k2
      · have hk2 : ¬ k2 = k := fun hh => hpk (hpk2.trans hh)
        simp [setAssoc, getAssoc, hpk, hpk2, hk2]
      · simp [setAssoc, getAssoc, hpk, hpk2, getAssoc_setAssoc rest k v k2]

theorem keys_setAssoc_of_some {α : Type} :
    ∀ (m : List (String × α)) (k : String) (v w : α),
      getAssoc m k = some w →
      (setAssoc m k v).map Prod.fst = m.map Prod.fst
  | [], _, _, _, h => by simp [getAssoc] at h
  | p :: rest, k, v, w, h => by
    by_cases hpk : p.1 = k
    · simp [setAssoc, hpk]
    · simp only [getAssoc, if_neg hpk] at h
      simp [setAssoc, hpk, keys_setAssoc_of_some rest k v w h]

theorem getD_length_setAssoc (m : ScheduleMap) (k : String) (v : List String)
    (w : List String) (hw : getAssoc m k = some w) (hlen : v.length = w.length)
    (k2 : String) :
    ((getAssoc (setAssoc m k v) k2).getD []).length =
      ((getAssoc m k2).getD []).length := by
  rw [getAssoc_setAssoc]
  by_cases h : k2 = k
  · subst h
    rw [if_pos rfl, hw]
    simpa using hlen
  · rw [if_neg h]

theorem exists_some_of_getD_length_ne (m : ScheduleMap) (k : String)
    (h : ((getAssoc m k).getD []).length ≠ 0) : ∃ w, getAssoc m k = some w := by
  cases hg : getAssoc m k with
  | none => exact absurd (by rw [hg]; rfl) h
  | some w => exact ⟨w, rfl⟩

theorem mutateSchedule_keys (schedule : ScheduleMap) (employees : List Employee)
    (shifts : List Shift) (c : MutationChoice) :
    (mutateSchedule schedule employees shifts c).map Prod.fst = schedule.map Prod.fst := by
  simp only [mutateSchedule, cloneSchedule_eq]
  split_ifs with g1 g2 g3 g4 g5 g6
  · rfl
  · rfl
  · obtain ⟨w, hw⟩ := exists_some_of_getD_length_ne schedule _ g2.2
    exact keys_setAssoc_of_some schedule _ _ w hw
  · obtain ⟨w1, hw1⟩ := exists_some_of_getD_length_ne schedule _ g5.1
    obtain ⟨w2, hw2⟩ := exists_some_of_getD_length_ne schedule _ g5.2
    rw [keys_setAssoc_of_some _ _ _ w2
      (by rw [getAssoc_setAssoc, if_neg g4, hw2])]
    exact keys_setAssoc_of_some schedule _ _ w1 hw1
  · rfl
  · rfl
  · rfl

theorem mutateSchedule_lengths (schedule : ScheduleMap) (employees : List Employee)
    (shifts : List Shift) (c : MutationChoice) (k : String) :
    ((getAssoc (mutateSchedule schedule employees shifts c) k).getD []).length =
      ((getAssoc schedule k).getD []).length := by
  simp only [mutateSchedule, cloneSchedule_eq]
  split_ifs with g1 g2 g3 g4 g5 g6
  · rfl
  · rfl
  · obtain ⟨w, hw⟩ := exists_some_of_getD_length_ne schedule _ g2.2
    apply getD_length_setAssoc schedule _ _ w hw
    simp only [List.length_set]
    rw [hw]
    rfl
  · obtain ⟨w1, hw1⟩ := exists_some_of_getD_length_ne schedule _ g5.1
    obtain ⟨w2, hw2⟩ := exists_some_of_getD_length_ne schedule _ g5.2
    rw [getD_length_setAssoc _ _ _ w2
      (by rw [getAssoc_setAssoc, if_neg g4, hw2])
      (by simp only [List.length_set]; rw [hw2]; rfl) k]
    apply getD_length_setAssoc schedule _ _ w1 hw1
    simp only [List.length_set]
    rw [hw1]
    rfl
  · rfl
  · rfl
  · rfl

theorem pickAssignees_length (r : ℕ → ℕ) :
    ∀ (need : ℕ) (avail : List Employee) (ctr : ℕ),
      (pickAssignees r need avail ctr).1.length = min need avail.length
  | 0, avail, _ => by simp [pickAssignees]
  | need + 1, avail, ctr => by
    by_cases h : avail.length = 0
    · simp [pickAssignees, h]
    · have hlt : r ctr % avail.length < avail.length :=
        Nat.mod_lt _ (Nat.pos_of_ne_zero h)
      simp only [pickAssignees, dif_neg h, List.length_cons]
      rw [pickAssignees_length r need (avail.eraseIdx (r ctr % avail.length)) (ctr + 1)]
      rw [List.length_eraseIdx, if_pos hlt]
      omega

theorem getAssoc_initScheduleGo_not_mem (employees : List Employee) (r : ℕ → ℕ) :
    ∀ (shifts : List Shift) (sched : ScheduleMap) (ctr : ℕ) (k : String),
      k ∉ shifts.map Shift.id →
      getAssoc (initScheduleGo employees r shifts sched ctr) k = getAssoc sched k
  | [], _, _, _, _ => rfl
  | s :: rest, sched, ctr, k, hk => by
    have hks : ¬ k = s.id := fun hh => hk (by simp [hh])
    have hkr : k ∉ rest.map Shift.id := fun hh => hk (by simp [hh])
    simp only [initScheduleGo]
    rw [getAssoc_initScheduleGo_not_mem employees r rest _ _ k hkr,
      getAssoc_setAssoc, if_neg hks]

theorem initScheduleGo_lengths (employees : List Employee) (r : ℕ → ℕ) :
    ∀ (shifts : List Shift) (sched : ScheduleMap) (ctr : ℕ),
      (shifts.map Shift.id).Nodup →
      ∀ s ∈ shifts,
        ((getAssoc (initScheduleGo employees r shifts sched ctr) s.id).getD []).length =
          min s.minRequiredEmployees employees.length
  | [], _, _, _, _, hs2 => by simp at hs2
  | s :: rest, sched, ctr, hnd, s2, hs2 => by
    have hnd2 : (rest.map Shift.id).Nodup := by simpa using hnd.of_cons
    have hhead : s.id ∉ rest.map Shift.id := by
      have := hnd
      simp only [List.map_cons, List.nodup_cons] at this
      exact this.1
    simp only [initScheduleGo]
    rcases List.mem_cons.mp hs2 with h2 | h2
    · subst h2
      rw [getAssoc_initScheduleGo_not_mem employees r rest _ _ s2.id hhead,
        getAssoc_setAssoc, if_pos rfl, Option.getD_some]
      exact pickAssignees_length r s2.minRequiredEmployees employees ctr
    · exact initScheduleGo_lengths employees r rest _ _ hnd2 s2 h2

theorem generateRandomInitialSchedule_lengths (employees : List Employee)
    (shifts : List Shift) (r : ℕ → ℕ) (hnd : (shifts.map Shift.id).Nodup) :
    ∀ s ∈ shifts,
      ((getAssoc (generateRandomInitialSchedule employees shifts r) s.id).getD []).length =
        min s.minRequiredEmployees employees.length :=
  initScheduleGo_lengths employees r shifts [] 0 hnd

theorem keys_setAssoc_of_none {α : Type} (m : List (String × α)) (k : String) (v : α)
    (h : getAssoc m k = none) :
    (setAssoc m k v).map Prod.fst = m.map Prod.fst ++ [k] := by
  rw [setAssoc_of_getAssoc_none m k v h]
  simp

theorem initScheduleGo_keys (employees : List Employee) (r : ℕ → ℕ) :
    ∀ (shifts : List Shift) (sched : ScheduleMap) (ctr : ℕ),
      (shifts.map Shift.id).Nodup →
      (∀ s ∈ shifts, getAssoc sched s.id = none) →
      (initScheduleGo employees r shifts sched ctr).map Prod.fst =
        sched.map Prod.fst ++ shifts.map Shift.id
  | [], _, _, _, _ => by simp [initScheduleGo]
  | s :: rest, sched, ctr, hnd, hnone => by
    have hnd2 : (rest.map Shift.id).Nodup := by simpa using hnd.of_cons
    have hhead : s.id ∉ rest.map Shift.id := by
      have := hnd
      simp only [List.map_cons, List.nodup_cons] at this
      exact this.1
    simp only [initScheduleGo]
    rw [initScheduleGo_keys employees r rest _ _ hnd2 ?_]
    · rw [keys_setAssoc_of_none sched s.id _ (hnone s (by simp))]
      simp
    · intro s2 hs2
      rw [getAssoc_setAssoc]
      have hne : ¬ s2.id = s.id := by
        intro hh
        exact hhead (hh ▸ List.mem_map_of_mem Shift.id hs2)
      rw [if_neg hne]
      exact hnone s2 (by simp [hs2])

theorem generateRandomInitialSchedule_keys (employees : List Employee)
    (shifts : List Shift) (r : ℕ → ℕ) (hnd : (shifts.map Shift.id).Nodup) :
    (generateRandomInitialSchedule employees shifts r).map Prod.fst =
      shifts.map Shift.id := by
  rw [generateRandomInitialSchedule,
    initScheduleGo_keys employees r shifts [] 0 hnd (by simp [getAssoc])]
  simp

theorem searchStep_schedule_pred (P : ScheduleMap → Prop) (o : Oracle)
    (employees : List Employee) (shifts : List Shift) (coolingRate : ℚ) (i : ℕ)
    (st : SearchState)
    (hmut : ∀ sch c, P sch → P (mutateSchedule sch employees shifts c))
    (h1 : P st.currentSchedule) (h2 : P st.bestSchedule) :
    P (searchStep o employees shifts coolingRate i st).currentSchedule ∧
      P (searchStep o employees shifts coolingRate i st).bestSchedule :=
  searchStepCore_schedule_pred P coolingRate (o.acceptWorse i) st _ _ _ h1 h2
    (hmut _ _ h1)

theorem searchGo_schedule_pred (P : ScheduleMap → Prop) (o : Oracle)
    (employees : List Employee) (shifts : List Shift) (coolingRate : ℚ)
    (hmut : ∀ sch c, P sch → P (mutateSchedule sch employees shifts c)) :
    ∀ (fuel i : ℕ) (st : SearchState),
      P st.currentSchedule → P st.bestSchedule →
      P (searchGo o employees shifts coolingRate fuel i st).currentSchedule ∧
        P (searchGo o employees shifts coolingRate fuel i st).bestSchedule
  | 0, _, _, h1, h2 => ⟨h1, h2⟩
  | fuel + 1, i, st, h1, h2 => by
    cases hst : st.stopped with
    | true =>
      rw [searchGo_of_stopped o employees shifts coolingRate (fuel + 1) i st hst]
      exact ⟨h1, h2⟩
    | false =>
      have hgo : searchGo o employees shifts coolingRate (fuel + 1) i st =
          searchGo o employees shifts coolingRate fuel (i + 1)
            (searchStep o employees shifts coolingRate i st) := by
        simp [searchGo, hst]
      rw [hgo]
      have hstep := searchStep_schedule_pred P o employees shifts coolingRate i st
        hmut h1 h2
      exact searchGo_schedule_pred P o employees shifts coolingRate hmut fuel (i + 1)
        _ hstep.1 hstep.2

theorem runHeuristicSearch_schedule_pred (P : ScheduleMap → Prop)
    (employees : List Employee) (shifts : List Shift) (options : SchedulerOptions)
    (o : Oracle)
    (hmut : ∀ sch c, P sch → P (mutateSchedule sch employees shifts c))
    (hinit : P (generateRandomInitialSchedule employees shifts o.initPick)) :
    P (runHeuristicSearch employees shifts options o).schedule := by
  have hinitBest : P (initSearchState employees shifts
      (orDefaultQ options.startTemperature 100) o).bestSchedule := by
    show P (cloneSchedule (generateRandomInitialSchedule employees shifts o.initPick))
    rw [cloneSchedule_eq]
    exact hinit
  have hres := searchGo_schedule_pred P o employees shifts
    (orDefaultQ options.coolingRate (95 / 100)) hmut
    (orDefaultNat options.maxIterations 5000) 0
    (initSearchState employees shifts (orDefaultQ options.startTemperature 100) o)
    hinit hinitBest
  exact hres.2

/-! ### Concrete fixtures for witnesses and counterexamples -/

/-- Employee record shaped like `mapEmployeeToAlgo` in `useScheduler.ts`. -/
def mkEmployee (i n : String) : Employee :=
  { id := i, name := n, maxDailyHours := 12, maxConsecutiveDays := 6,
    preferredShiftTypes := none, avoidShiftTypes := none, preferredDates := none,
    avoidDates := none, vacationDates := none, unavailableTimeBlocks := none }

def empA : Employee := mkEmployee "A" "Alice"

def empB : Employee := mkEmployee "B" "Bob"

def empC : Employee := mkEmployee "C" "Carol"

/-- Shift record with one required employee. -/
def mkShift (i : String) (start finish : ℤ) (t : ShiftType) : Shift :=
  { id := i, date := "2024-01-01", startTime := start, endTime := finish,
    type := t, minRequiredEmployees := 1, maxAllowedEmployees := none }

def dayShiftOne : Shift := mkShift "s1" 0 (4 * 3600000) ShiftType.custom

def dayShiftTwo : Shift := mkShift "s2" (5 * 3600000) (9 * 3600000) ShiftType.custom

def soloShift : Shift := mkShift "s0" 0 (4 * 3600000) ShiftType.custom

def nightShiftOne : Shift := mkShift "n1" (22 * 3600000) (30 * 3600000) ShiftType.night

def nightShiftTwo : Shift := mkShift "n2" (46 * 3600000) (54 * 3600000) ShiftType.night

def nightShiftThree : Shift := mkShift "n3" (70 * 3600000) (78 * 3600000) ShiftType.night

def nightShifts : List Shift := [nightShiftOne, nightShiftTwo, nightShiftThree]

def cxEmployees : List Employee := [empA, empB]

def cxShifts : List Shift := [dayShiftOne, dayShiftTwo]

/-- An oracle whose first mutation replaces the assignee of the second
shift by the first employee not already on it. -/
def repairOracle : Oracle :=
  { initPick := fun _ => 0
    mutChoice := fun _ =>
      { shiftIdx := 1, strategyLt := true, replaceIdx := 0,
        newEmpIdx := 0, otherShiftIdx := 0, pairIdxA := 0, pairIdxB := 0 }
    acceptWorse := fun _ => false }

/-- A schedule whose only assignee is an id that occurs in no employee list. -/
def ghostPairSchedule : ScheduleMap := [("s1", ["ghost"]), ("s2", ["ghost"])]

/-- Three known night shifts all assigned to an unknown employee id. -/
def ghostNightSchedule : ScheduleMap := [("n1", ["ghost"]), ("n2", ["ghost"]), ("n3", ["ghost"])]

/-- Three night shifts all assigned to employee `A`. -/
def allNightsToA : ScheduleMap := [("n1", ["A"]), ("n2", ["A"]), ("n3", ["A"])]

theorem findSome?_eq_some_ex {α β : Type} (f : α → Option β) :
    ∀ (l : List α) (b : β), l.findSome? f = some b → ∃ a ∈ l, f a = some b
  | [], b, h => by simp at h
  | a :: rest, b, h => by
    rw [List.findSome?_cons] at h
    cases hf : f a with
    | some v =>
      rw [hf] at h
      exact ⟨a, by simp, by rw [hf]; exact h⟩
    | none =>
      rw [hf] at h
      rcases findSome?_eq_some_ex f rest b h with ⟨a2, ha2, hfa2⟩
      exact ⟨a2, by simp [ha2], hfa2⟩

theorem specNight_zero_of_total_zero (schedule : ScheduleMap)
    (employees : List Employee) (shifts : List Shift)
    (h0 : specNightTotal schedule employees shifts = 0) :
    specNightScore schedule employees shifts = 0 ∧
      specNightViolations schedule employees shifts = [] := by
  have hcnt : ∀ e ∈ employees, specNightCount schedule shifts e.id = 0 := by
    intro e he
    refine le_antisymm ?_ (specNightCount_nonneg schedule shifts e.id)
    have hle : specNightCount schedule shifts e.id ≤
        (employees.map (fun e2 => specNightCount schedule shifts e2.id)).sum := by
      refine List.single_le_sum ?_ _ (List.mem_map_of_mem _ he)
      intro x hx
      rcases List.mem_map.mp hx with ⟨e2, _, he2⟩
      exact he2 ▸ specNightCount_nonneg schedule shifts e2.id
    calc specNightCount schedule shifts e.id ≤ _ := hle
      _ = 0 := h0
  have hmean : specNightMean schedule employees shifts = 0 := by
    simp [specNightMean, h0]
  have hdev : ∀ e ∈ employees, specNightDeviation schedule employees shifts e = 0 := by
    intro e he
    simp [specNightDeviation, hmean, hcnt e he]
  constructor
  · apply List.sum_eq_zero
    intro x hx
    rcases List.mem_map.mp hx with ⟨e, he, hex⟩
    rw [← hex, hdev e he]
    norm_num
  · have hf : (employees.filter
        (fun e => decide (specNightDeviation schedule employees shifts e > 1))) = [] := by
      apply List.filter_eq_nil.mpr
      intro e he
      simp [hdev e he]
    simp [specNightViolations, hf]

/-! ### Claim theorems -/

/-- C2: for every schedule, employee list and shift list,
`validateHardConstraints` returns exactly one `MINIMUM_REST_VIOLATION` of
hard severity naming the first employee (in grouping scan order) whose
sorted shifts contain a consecutive pair resting less than 8 hours and the
first such pair, returning without scanning further; it returns the empty
list exactly when no grouped employee has such a pair. -/
theorem c2_validate_first_rest_violation (schedule : ScheduleMap)
    (employees : List Employee) (shifts : List Shift) :
    validateHardConstraints schedule employees shifts =
      (match specFirstOffender (buildEmployeeShifts schedule shifts) with
       | some t => [restViolation t.1 t.2.1 t.2.2]
       | none => []) ∧
    (validateHardConstraints schedule employees shifts = [] ↔
      ∀ p ∈ buildEmployeeShifts schedule shifts,
        ∀ q ∈ (sortByStart p.2).zip (sortByStart p.2).tail,
          ¬ restGapHours q.1 q.2 < 8) := by
  refine ⟨validateGo_eq_specFirstOffender _, ?_⟩
  rw [validateHardConstraints, validateGo_eq_specFirstOffender]
  cases hf : specFirstOffender (buildEmployeeShifts schedule shifts) with
  | some t =>
    simp only
    constructor
    · intro hh
      simp at hh
    · intro hall
      exfalso
      rcases findSome?_eq_some_ex _ _ _ hf with ⟨p, hpG, hfp⟩
      rcases Option.map_eq_some'.mp hfp with ⟨q, hq, _⟩
      have hmem := List.mem_of_find?_eq_some hq
      have hbad := List.find?_some hq
      simp only [decide_eq_true_eq] at hbad
      exact hall p hpG q hmem hbad
  | none =>
    simp only
    constructor
    · intro _ p hpG q hqmem hbad
      have hnone := List.findSome?_eq_none.mp hf p hpG
      rw [Option.map_eq_none'] at hnone
      have := List.find?_eq_none.mp hnone q hqmem
      simp only [decide_eq_true_eq] at this
      exact this hbad
    · intro _
      trivial

/-- C8 (amended): schedule entries whose shift id does not occur in the
shift list are silently ignored by both `validateHardConstraints` and
`calculatePenaltyScore` — both return the same result as on the schedule
with those entries removed.  (Unknown employee ids, by contrast, are
processed like any other employee; see the counterexample.) -/
theorem c8_unknown_shift_ids_ignored (schedule : ScheduleMap)
    (employees : List Employee) (shifts : List Shift) :
    validateHardConstraints (keepKnownShifts schedule shifts) employees shifts =
      validateHardConstraints schedule employees shifts ∧
    calculatePenaltyScore (keepKnownShifts schedule shifts) employees shifts =
      calculatePenaltyScore schedule employees shifts := by
  constructor
  · rw [validateHardConstraints, validateHardConstraints,
      buildEmployeeShifts_keepKnownShifts]
  · simp only [calculatePenaltyScore]
    rw [buildEmployeeShifts_keepKnownShifts]

/-- C8 counterexample: an assigned employee id that occurs in no employee
list is not ignored — on a schedule whose only assignee is the unknown id
`ghost`, `validateHardConstraints` reports a rest violation naming `ghost`,
while removing the unknown id yields no violation at all. -/
theorem c8_counterexample :
    validateHardConstraints ghostPairSchedule [] [dayShiftOne, dayShiftTwo] ≠
      validateHardConstraints (dropUnknownEmployees ghostPairSchedule [])
        [] [dayShiftOne, dayShiftTwo] ∧
    (validateHardConstraints ghostPairSchedule [] [dayShiftOne, dayShiftTwo]).length = 1 ∧
    (validateHardConstraints ghostPairSchedule [] [dayShiftOne, dayShiftTwo]).map
      ConstraintViolation.employeeIds = [["ghost"]] ∧
    validateHardConstraints (dropUnknownEmployees ghostPairSchedule [])
      [] [dayShiftOne, dayShiftTwo] = [] := by
  with_unfolding_all decide

/-- C3 (amended): when every assigned employee id occurs in the (duplicate
free, non-empty) employee list, `calculatePenaltyScore` computes exactly
the night-shift fairness model of the specification: the score is
`deviation² × 10` summed over employees deviating by more than 1 from the
mean, with one `UNEVEN_NIGHT_SHIFTS` violation per such employee (empty
shift-id list), and a zero total night count contributes zero. -/
theorem c3_night_fairness_spec (schedule : ScheduleMap) (employees : List Employee)
    (shifts : List Shift) (hEmp : employees ≠ [])
    (hNodup : (employees.map Employee.id).Nodup)
    (hKnown : ∀ p ∈ schedule, ∀ i ∈ p.2, i ∈ employees.map Employee.id) :
    (calculatePenaltyScore schedule employees shifts).score =
      specNightScore schedule employees shifts ∧
    (calculatePenaltyScore schedule employees shifts).violations =
      specNightViolations schedule employees shifts ∧
    (specNightTotal schedule employees shifts = 0 →
      calculatePenaltyScore schedule employees shifts = { score := 0, violations := [] }) := by
  have h := calculatePenaltyScore_spec schedule employees shifts hNodup hKnown hEmp
  refine ⟨by rw [h], by rw [h], ?_⟩
  intro h0
  obtain ⟨hs, hv⟩ := specNight_zero_of_total_zero schedule employees shifts h0
  rw [h, hs, hv]

/-- C3 counterexample: with one employee `A` and three night shifts all
assigned to the unknown id `ghost`, the claimed computation (counts over
the employee list only) yields score 0 and no violations, but the code
counts `ghost` into the total, obtains mean 3, and penalizes `A` with
score 90 and one violation. -/
theorem c3_counterexample :
    (calculatePenaltyScore ghostNightSchedule [empA] nightShifts).score = 90 ∧
    (calculatePenaltyScore ghostNightSchedule [empA] nightShifts).violations.map
      ConstraintViolation.employeeIds = [["A"]] ∧
    specNightScore ghostNightSchedule [empA] nightShifts = 0 ∧
    specNightViolations ghostNightSchedule [empA] nightShifts = [] := by
  with_unfolding_all decide

/-- C3 witness: the specification's own example — three employees, three
night shifts all assigned to `A` — satisfies the amended theorem's
hypotheses, and there the score is 40 with exactly one violation naming
`A`. -/
theorem c3_witness :
    (([empA, empB, empC] : List Employee) ≠ [] ∧
      (([empA, empB, empC] : List Employee).map Employee.id).Nodup ∧
      (∀ p ∈ allNightsToA, ∀ i ∈ p.2,
        i ∈ ([empA, empB, empC] : List Employee).map Employee.id)) ∧
    ((calculatePenaltyScore allNightsToA [empA, empB, empC] nightShifts).score =
        specNightScore allNightsToA [empA, empB, empC] nightShifts ∧
      (calculatePenaltyScore allNightsToA [empA, empB, empC] nightShifts).violations =
        specNightViolations allNightsToA [empA, empB, empC] nightShifts ∧
      (specNightTotal allNightsToA [empA, empB, empC] nightShifts = 0 →
        calculatePenaltyScore allNightsToA [empA, empB, empC] nightShifts =
          { score := 0, violations := [] })) ∧
    (calculatePenaltyScore allNightsToA [empA, empB, empC] nightShifts).score = 40 ∧
    (calculatePenaltyScore allNightsToA [empA, empB, empC] nightShifts).violations.map
      ConstraintViolation.employeeIds = [["A"]] :=
  ⟨⟨by with_unfolding_all decide, by with_unfolding_all decide,
      by with_unfolding_all decide⟩,
    c3_night_fairness_spec allNightsToA [empA, empB, empC] nightShifts
      (by with_unfolding_all decide) (by with_unfolding_all decide)
      (by with_unfolding_all decide),
    by with_unfolding_all decide, by with_unfolding_all decide⟩

/-- C1: the worker's `onmessage` handler does not return the search
engine's result.  It posts a hard-coded stub evaluation (`isValid: false`,
`penaltyScore: 9999`, empty schedule) without calling
`runHeuristicSearch`; already on the empty request the search engine
returns a valid evaluation, so the posted message differs from
`runHeuristicSearch`'s evaluation. -/
theorem c1_onmessage_stub_diverges (o : Oracle) (options : SchedulerOptions) :
    (onmessageResponse { employees := [], shifts := [], options := none }).isValid =
      false ∧
    (runHeuristicSearch [] [] options o).isValid = true ∧
    onmessageResponse { employees := [], shifts := [], options := none } ≠
      runHeuristicSearch [] [] options o := by
  have h := runHeuristicSearch_empty [] [] options o (Or.inl rfl)
  refine ⟨rfl, by rw [h], ?_⟩
  intro hh
  rw [h] at hh
  simp [onmessageResponse] at hh

/-- C4: across iterations the tracked best-ever energy is non-increasing,
it never exceeds the current schedule's energy, and one iteration updates
it to the minimum of the previous best and the new current energy
(capturing that the current schedule is promoted to best exactly when its
energy drops below the best). -/
theorem c4_best_energy_monotone (employees : List Employee) (shifts : List Shift)
    (startTemperature coolingRate : ℚ) (o : Oracle) (i j : ℕ) (hij : i ≤ j) :
    (searchStateAt employees shifts startTemperature coolingRate o j).bestEnergy ≤
      (searchStateAt employees shifts startTemperature coolingRate o i).bestEnergy ∧
    (searchStateAt employees shifts startTemperature coolingRate o j).bestEnergy ≤
      (searchStateAt employees shifts startTemperature coolingRate o j).currentEnergy ∧
    ((searchStateAt employees shifts startTemperature coolingRate o i).stopped = false →
      (searchStateAt employees shifts startTemperature coolingRate o (i + 1)).bestEnergy =
        min (searchStateAt employees shifts startTemperature coolingRate o i).bestEnergy
          (searchStateAt employees shifts startTemperature coolingRate o
            (i + 1)).currentEnergy) := by
  have hinit : (initSearchState employees shifts startTemperature o).bestEnergy ≤
      (initSearchState employees shifts startTemperature o).currentEnergy :=
    le_of_eq rfl
  have hi := searchGo_best_inv o employees shifts coolingRate i 0
    (initSearchState employees shifts startTemperature o) hinit
  obtain ⟨k, hk⟩ : ∃ k, j = i + k := ⟨j - i, by omega⟩
  subst hk
  have hcompj : searchStateAt employees shifts startTemperature coolingRate o (i + k) =
      searchGo o employees shifts coolingRate k i
        (searchStateAt employees shifts startTemperature coolingRate o i) := by
    rw [searchStateAt, searchStateAt,
      searchGo_add o employees shifts coolingRate i k 0
        (initSearchState employees shifts startTemperature o)]
    rw [Nat.zero_add]
  have hj := searchGo_best_inv o employees shifts coolingRate k i
    (searchStateAt employees shifts startTemperature coolingRate o i) hi.2
  refine ⟨by rw [hcompj]; exact hj.1, by rw [hcompj]; exact hj.2, ?_⟩
  intro hns
  have hsucc : searchStateAt employees shifts startTemperature coolingRate o (i + 1) =
      searchStep o employees shifts coolingRate i
        (searchStateAt employees shifts startTemperature coolingRate o i) := by
    rw [searchStateAt, searchStateAt,
      searchGo_add o employees shifts coolingRate i 1 0
        (initSearchState employees shifts startTemperature o)]
    rw [Nat.zero_add]
    have hns2 : (searchGo o employees shifts coolingRate i 0
        (initSearchState employees shifts startTemperature o)).stopped = false := hns
    simp [searchGo, hns2]
  rw [hsucc]
  exact searchStep_min o employees shifts coolingRate i _ hi.2

/-- C4 witness: the monotonicity theorem applied to the empty instance at
iterations 0 and 1. -/
theorem c4_witness :
    (0 : ℕ) ≤ 1 ∧
    ((searchStateAt [] [] 100 (95 / 100) zeroOracle 1).bestEnergy ≤
        (searchStateAt [] [] 100 (95 / 100) zeroOracle 0).bestEnergy ∧
      (searchStateAt [] [] 100 (95 / 100) zeroOracle 1).bestEnergy ≤
        (searchStateAt [] [] 100 (95 / 100) zeroOracle 1).currentEnergy ∧
      ((searchStateAt [] [] 100 (95 / 100) zeroOracle 0).stopped = false →
        (searchStateAt [] [] 100 (95 / 100) zeroOracle (0 + 1)).bestEnergy =
          min (searchStateAt [] [] 100 (95 / 100) zeroOracle 0).bestEnergy
            (searchStateAt [] [] 100 (95 / 100) zeroOracle (0 + 1)).currentEnergy)) :=
  ⟨by decide, c4_best_energy_monotone [] [] 100 (95 / 100) zeroOracle 0 1 (by decide)⟩

/-- C5 (amended): whenever the final best-ever energy is 0 the returned
evaluation has `isValid = true`; and if in addition the initial energy was
not already 0 — that is, best energy reached 0 through an in-loop
improvement — the loop stopped before completing the configured
`maxIterations` iterations.  (A run whose initial schedule already has
energy 0 runs all iterations; see the counterexample.) -/
theorem c5_early_exit (employees : List Employee) (shifts : List Shift)
    (options : SchedulerOptions) (o : Oracle)
    (h : (runSearchState employees shifts options o).bestEnergy = 0) :
    (runHeuristicSearch employees shifts options o).isValid = true ∧
    ((initSearchState employees shifts (orDefaultQ options.startTemperature 100)
        o).bestEnergy ≠ 0 →
      (runSearchState employees shifts options o).itersDone <
        orDefaultNat options.maxIterations 5000) :=
  ⟨runSearch_best_zero_isValid employees shifts options o h,
    fun h0 => runSearch_zero_early_exit employees shifts options o h h0⟩

/-- C5 counterexample: one employee and one shift give an initial schedule
of energy 0; the best-ever energy is 0 throughout, yet the loop runs all
3 = `maxIterations` iterations instead of terminating before them. -/
theorem c5_counterexample :
    (runSearchState [empA] [soloShift] { maxIterations := some 3 } zeroOracle).bestEnergy
      = 0 ∧
    (runSearchState [empA] [soloShift] { maxIterations := some 3 } zeroOracle).itersDone
      = 3 ∧
    orDefaultNat ({ maxIterations := some 3 } : SchedulerOptions).maxIterations 5000 = 3 ∧
    ¬ (runSearchState [empA] [soloShift] { maxIterations := some 3 }
        zeroOracle).itersDone <
      orDefaultNat ({ maxIterations := some 3 } : SchedulerOptions).maxIterations 5000 := by
  with_unfolding_all decide

/-- C5 witness: a two-employee instance whose initial schedule is invalid
(energy 10000) and is repaired at the first iteration: best energy reaches
0, the loop stops before `maxIterations = 2`, and the result is valid. -/
theorem c5_witness :
    (runSearchState cxEmployees cxShifts { maxIterations := some 2 }
        repairOracle).bestEnergy = 0 ∧
    ((runHeuristicSearch cxEmployees cxShifts { maxIterations := some 2 }
        repairOracle).isValid = true ∧
      ((initSearchState cxEmployees cxShifts
          (orDefaultQ ({ maxIterations := some 2 } : SchedulerOptions).startTemperature 100)
          repairOracle).bestEnergy ≠ 0 →
        (runSearchState cxEmployees cxShifts { maxIterations := some 2 }
            repairOracle).itersDone <
          orDefaultNat ({ maxIterations := some 2 } : SchedulerOptions).maxIterations 5000)) :=
  ⟨by with_unfolding_all decide,
    c5_early_exit cxEmployees cxShifts { maxIterations := some 2 } repairOracle
      (by with_unfolding_all decide)⟩

/-- C6: if no employee id appears twice within any one shift's assignment
list, the same holds after `mutateSchedule` under any random choices; and
the initial schedule built by `generateRandomInitialSchedule` has this
property outright (given the data model's unique employee ids), so
repeated mutation never produces a duplicate assignment within a shift. -/
theorem c6_no_duplicate_assignments (schedule : ScheduleMap)
    (employees : List Employee) (shifts : List Shift) (c : MutationChoice)
    (r : ℕ → ℕ) (hemp : (employees.map Employee.id).Nodup)
    (h : ∀ p ∈ schedule, p.2.Nodup) :
    (∀ p ∈ mutateSchedule schedule employees shifts c, p.2.Nodup) ∧
    (∀ p ∈ generateRandomInitialSchedule employees shifts r, p.2.Nodup) :=
  ⟨mutateSchedule_nodup schedule employees shifts c h,
    generateRandomInitialSchedule_nodup employees shifts r hemp⟩

/-- C6 witness: the duplicate-freedom theorem applied to a concrete
schedule over two employees and two shifts. -/
theorem c6_witness :
    ((cxEmployees.map Employee.id).Nodup ∧
      ∀ p ∈ ([("s1", ["A", "B"])] : ScheduleMap), p.2.Nodup) ∧
    ((∀ p ∈ mutateSchedule [("s1", ["A", "B"])] cxEmployees cxShifts
        (zeroOracle.mutChoice 0), p.2.Nodup) ∧
      (∀ p ∈ generateRandomInitialSchedule cxEmployees cxShifts
        (fun _ => 0), p.2.Nodup)) :=
  ⟨⟨by decide, by decide⟩,
    c6_no_duplicate_assignments [("s1", ["A", "B"])] cxEmployees cxShifts
      (zeroOracle.mutChoice 0) (fun _ => 0) (by decide) (by decide)⟩

/-- C7: with zero employees and/or zero shifts, `runHeuristicSearch`
returns an evaluation whose schedule has no assignments, with
`isValid = true`, `penaltyScore = 0` and no violations; on the empty
schedule `validateHardConstraints` returns no violations and
`calculatePenaltyScore` returns score 0 with no violations. -/
theorem c7_empty_input (employees : List Employee) (shifts : List Shift)
    (options : SchedulerOptions) (o : Oracle) (h : employees = [] ∨ shifts = []) :
    (∀ p ∈ (runHeuristicSearch employees shifts options o).schedule,
      p.2 = ([] : List String)) ∧
    (runHeuristicSearch employees shifts options o).isValid = true ∧
    (runHeuristicSearch employees shifts options o).penaltyScore = 0 ∧
    (runHeuristicSearch employees shifts options o).constraintViolations = [] ∧
    validateHardConstraints [] employees shifts = [] ∧
    calculatePenaltyScore [] employees shifts = { score := 0, violations := [] } := by
  have hre := runHeuristicSearch_empty employees shifts options o h
  refine ⟨?_, by rw [hre], by rw [hre], by rw [hre], ?_, ?_⟩
  · rw [hre]
    exact generateRandomInitialSchedule_empty employees shifts o.initPick h
  · exact validateHardConstraints_of_nil_assignments [] employees shifts (by simp)
  · exact calculatePenaltyScore_of_empty_groups [] employees shifts rfl

/-- C7 witness: the empty-input theorem applied to the fully empty
request. -/
theorem c7_witness :
    (([] : List Employee) = [] ∨ ([] : List Shift) = []) ∧
    ((∀ p ∈ (runHeuristicSearch [] [] { maxIterations := some 1 } zeroOracle).schedule,
        p.2 = ([] : List String)) ∧
      (runHeuristicSearch [] [] { maxIterations := some 1 } zeroOracle).isValid = true ∧
      (runHeuristicSearch [] [] { maxIterations := some 1 } zeroOracle).penaltyScore = 0 ∧
      (runHeuristicSearch [] [] { maxIterations := some 1 }
        zeroOracle).constraintViolations = [] ∧
      validateHardConstraints [] [] [] = [] ∧
      calculatePenaltyScore [] [] [] = { score := 0, violations := [] }) :=
  ⟨Or.inl rfl, c7_empty_input [] [] { maxIterations := some 1 } zeroOracle (Or.inl rfl)⟩

/-- C9 (amended): `runHeuristicSearch` resolves its three options through
JavaScript `||`, so a supplied NONZERO `maxIterations`, `startTemperature`
or `coolingRate` is the value used for the run, while an omitted option —
and likewise a supplied 0 — falls back to the default (5000, 100.0, 0.95);
the scheduling hook supplies `maxIterations: 10000`. -/
theorem c9_options_resolution (employees : List Employee) (shifts : List Shift)
    (options : SchedulerOptions) (o : Oracle) (mi : ℕ) (st cr : ℚ)
    (hmi : mi ≠ 0) (hst : st ≠ 0) (hcr : cr ≠ 0) :
    runHeuristicSearch employees shifts options o =
      runSearchWith employees shifts (orDefaultNat options.maxIterations 5000)
        (orDefaultQ options.startTemperature 100)
        (orDefaultQ options.coolingRate (95 / 100)) o ∧
    orDefaultNat (some mi) 5000 = mi ∧
    orDefaultNat none 5000 = 5000 ∧
    orDefaultQ (some st) 100 = st ∧
    orDefaultQ none 100 = 100 ∧
    orDefaultQ (some cr) (95 / 100) = cr ∧
    orDefaultQ none (95 / 100) = 95 / 100 ∧
    hookSchedulerOptions.maxIterations = some 10000 := by
  refine ⟨rfl, ?_, rfl, ?_, rfl, ?_, rfl, rfl⟩
  · simp [orDefaultNat, hmi]
  · simp [orDefaultQ, hst]
  · simp [orDefaultQ, hcr]

/-- C9 witness: the resolution theorem at supplied values 7, 50 and
9/10. -/
theorem c9_witness :
    ((7 : ℕ) ≠ 0 ∧ (50 : ℚ) ≠ 0 ∧ ((9 : ℚ) / 10) ≠ 0) ∧
    (runHeuristicSearch [] [] {} zeroOracle =
      runSearchWith [] [] (orDefaultNat ({} : SchedulerOptions).maxIterations 5000)
        (orDefaultQ ({} : SchedulerOptions).startTemperature 100)
        (orDefaultQ ({} : SchedulerOptions).coolingRate (95 / 100)) zeroOracle ∧
    orDefaultNat (some 7) 5000 = 7 ∧
    orDefaultNat none 5000 = 5000 ∧
    orDefaultQ (some 50) 100 = 50 ∧
    orDefaultQ none 100 = 100 ∧
    orDefaultQ (some ((9 : ℚ) / 10)) (95 / 100) = (9 : ℚ) / 10 ∧
    orDefaultQ none (95 / 100) = 95 / 100 ∧
    hookSchedulerOptions.maxIterations = some 10000) :=
  ⟨⟨by decide, by with_unfolding_all decide, by with_unfolding_all decide⟩,
    c9_options_resolution [] [] {} zeroOracle 7 50 ((9 : ℚ) / 10)
      (by decide) (by with_unfolding_all decide) (by with_unfolding_all decide)⟩

/-- C9 counterexample: a supplied `maxIterations` of 0 is NOT the value
used for the run — `0 || 5000` resolves to 5000, and the run with
`maxIterations: 0` behaves like a 5000-iteration run (here reaching a
valid result), not like a run of 0 iterations (which would return the
invalid initial evaluation). -/
theorem c9_counterexample :
    ({ maxIterations := some 0 } : SchedulerOptions).maxIterations = some 0 ∧
    orDefaultNat (some 0) 5000 = 5000 ∧
    (runHeuristicSearch cxEmployees cxShifts { maxIterations := some 0 }
      repairOracle).isValid = true ∧
    (runSearchWith cxEmployees cxShifts 0 (orDefaultQ none 100)
      (orDefaultQ none (95 / 100)) repairOracle).isValid = false := by
  have hstop : (searchStateAt cxEmployees cxShifts 100 (95 / 100) repairOracle 2).stopped
      = true := by
    with_unfolding_all decide
  have hbe : (searchStateAt cxEmployees cxShifts 100 (95 / 100) repairOracle 2).bestEnergy
      = 0 := by
    with_unfolding_all decide
  have h5000 : runSearchState cxEmployees cxShifts { maxIterations := some 0 }
      repairOracle =
      searchStateAt cxEmployees cxShifts 100 (95 / 100) repairOracle 2 := by
    show searchStateAt cxEmployees cxShifts 100 (95 / 100) repairOracle 5000 = _
    rw [searchStateAt, show (5000 : ℕ) = 2 + 4998 from rfl,
      searchGo_add repairOracle cxEmployees cxShifts (95 / 100) 2 4998 0 _,
      Nat.zero_add]
    exact searchGo_of_stopped repairOracle cxEmployees cxShifts (95 / 100) 4998 2 _ hstop
  refine ⟨rfl, rfl, ?_, by with_unfolding_all decide⟩
  apply runSearch_best_zero_isValid
  rw [h5000]
  exact hbe

/-- C10: `mutateSchedule` preserves the schedule's key list and every
key's assignee count; `generateRandomInitialSchedule` keys the schedule by
the shift ids and gives each shift `min(minRequiredEmployees, |employees|)`
assignees; and throughout a whole `runHeuristicSearch` run every shift
retains exactly that initial assignee count. -/
theorem c10_slot_preservation (schedule : ScheduleMap) (employees : List Employee)
    (shifts : List Shift) (c : MutationChoice) (options : SchedulerOptions)
    (o : Oracle) (hnd : (shifts.map Shift.id).Nodup) :
    ((mutateSchedule schedule employees shifts c).map Prod.fst =
        schedule.map Prod.fst ∧
      ∀ k, ((getAssoc (mutateSchedule schedule employees shifts c) k).getD []).length =
        ((getAssoc schedule k).getD []).length) ∧
    ((generateRandomInitialSchedule employees shifts o.initPick).map Prod.fst =
        shifts.map Shift.id ∧
      ∀ s ∈ shifts,
        ((getAssoc (generateRandomInitialSchedule employees shifts o.initPick)
          s.id).getD []).length = min s.minRequiredEmployees employees.length) ∧
    ∀ s ∈ shifts,
      ((getAssoc (runHeuristicSearch employees shifts options o).schedule
        s.id).getD []).length = min s.minRequiredEmployees employees.length := by
  refine ⟨⟨mutateSchedule_keys schedule employees shifts c,
      fun k => mutateSchedule_lengths schedule employees shifts c k⟩,
    ⟨generateRandomInitialSchedule_keys employees shifts o.initPick hnd,
      generateRandomInitialSchedule_lengths employees shifts o.initPick hnd⟩, ?_⟩
  exact runHeuristicSearch_schedule_pred
    (fun sch => ∀ s2 ∈ shifts, ((getAssoc sch s2.id).getD []).length =
      min s2.minRequiredEmployees employees.length)
    employees shifts options o
    (fun sch c2 hp s2 hs2 => by
      rw [mutateSchedule_lengths]
      exact hp s2 hs2)
    (generateRandomInitialSchedule_lengths employees shifts o.initPick hnd)

/-- C10 witness: the slot-preservation theorem on one employee and one
single-slot shift. -/
theorem c10_witness :
    (([soloShift].map Shift.id).Nodup ∧
    (((mutateSchedule [("s0", ["A"])] [empA] [soloShift]
          (zeroOracle.mutChoice 0)).map Prod.fst =
        ([("s0", ["A"])] : ScheduleMap).map Prod.fst ∧
      ∀ k, ((getAssoc (mutateSchedule [("s0", ["A"])] [empA] [soloShift]
          (zeroOracle.mutChoice 0)) k).getD []).length =
        ((getAssoc ([("s0", ["A"])] : ScheduleMap) k).getD []).length) ∧
    ((generateRandomInitialSchedule [empA] [soloShift] zeroOracle.initPick).map
        Prod.fst = [soloShift].map Shift.id ∧
      ∀ s ∈ [soloShift],
        ((getAssoc (generateRandomInitialSchedule [empA] [soloShift]
          zeroOracle.initPick) s.id).getD []).length =
          min s.minRequiredEmployees ([empA] : List Employee).length) ∧
    ∀ s ∈ [soloShift],
      ((getAssoc (runHeuristicSearch [empA] [soloShift] {} zeroOracle).schedule
        s.id).getD []).length = min s.minRequiredEmployees
          ([empA] : List Employee).length)) :=
  ⟨by decide,
    c10_slot_preservation [("s0", ["A"])] [empA] [soloShift]
      (zeroOracle.mutChoice 0) {} zeroOracle (by decide)⟩
